import Mathlib

/-!
Verification development for the offline-first Kanban board core
(client reducer, sync queue, conflict detection and resolution, history stack).
The definitions below are a shallow embedding of the JavaScript source:
the reducer in src/client/src/context (used by BoardProvider), the conflict
helpers in src/client/src/services/api.js, the reconciliation part of
processQueue in src/client/src/hooks/useOfflineSync.js, and the legacy
reducer in src/client/context/boardReducer.js where noted.
-/

namespace Trello

/-- Board list entity, the record shape built by createList in the reducer. -/
structure BList where
  id : String
  title : String
  order : Int
  archived : Bool
  createdAt : String
  lastModifiedAt : String
  version : Nat
deriving DecidableEq, Repr

/-- Card entity, the record shape built by createCard in the reducer. -/
structure Card where
  id : String
  listId : String
  title : String
  description : String
  tags : List String
  order : Int
  createdAt : String
  lastModifiedAt : String
  version : Nat
deriving DecidableEq, Repr

/-- A history snapshot holds deep copies of the lists and cards slices
(PUSH_HISTORY stores JSON deep copies; for pure values a copy is the value). -/
structure Snapshot where
  lists : List BList
  cards : List Card
deriving DecidableEq, Repr

/-- A conflict's localVersion and serverVersion hold whichever entity kind the
conflict is about (the JS object is duck-typed; this sum carries the kind). -/
inductive Entity where
  | card (c : Card)
  | list (l : BList)
deriving DecidableEq, Repr

/-- The version read the resolver performs as serverVersion?.version || 0
(total on both entity kinds, matching the optional-chain read). -/
def Entity.version : Entity → Nat
  | .card c => c.version
  | .list l => l.version

/-- Conflict record: { id, itemId, type, localVersion, serverVersion, detectedAt }. -/
structure Conflict where
  id : String
  itemId : String
  ctype : String
  localVersion : Entity
  serverVersion : Entity
  detectedAt : String
deriving DecidableEq, Repr

/-- The updates object dispatched by UPDATE_CARD; call sites
(CardDetailModal.jsx) send only the content fields title, description, tags,
each optional under JS spread merge. -/
structure CardUpdates where
  title : Option String
  description : Option String
  tags : Option (List String)
deriving DecidableEq, Repr

/-- The data payload of a sync-queue entry; one constructor per shape the
reducer actually enqueues (JS stores a dynamic object per entry type). -/
inductive QueueData where
  | createListData (list : BList)
  | updateListFields (id : String) (title : String) (version : Nat)
  | updateListFull (list : BList)
  | archiveListData (id : String)
  | restoreListData (id : String)
  | reorderListsData (listIds : List String)
  | createCardData (card : Card)
  | updateCardFields (id : String) (updates : CardUpdates)
  | updateCardFull (card : Card)
  | deleteCardData (id : String)
  | moveCardData (cardId : String) (sourceListId : String) (targetListId : String)
      (targetIndex : Option Int)
  | reorderCardData (cardId : String) (listId : String) (newIndex : Nat)
deriving DecidableEq, Repr

/-- Sync-queue entry { type, data, timestamp, id }. -/
structure QueueEntry where
  qtype : String
  data : QueueData
  timestamp : Nat
  id : String
deriving DecidableEq, Repr

/-- The reducer state (initialState shape in src/client/src/context). -/
structure BoardState where
  lists : List BList
  cards : List Card
  syncQueue : List QueueEntry
  lastSyncedAt : Option String
  isOnline : Bool
  history : List Snapshot
  historyIndex : Int
  conflicts : List Conflict
deriving DecidableEq, Repr

/-- Ambient effects of one reducer call: the uuidv4() draws (uuid1 for the
entity or first queue id, uuid2 for a second draw in the same case) and the
current time as ISO string and epoch milliseconds. -/
structure Ctx where
  uuid1 : String
  uuid2 : String
  nowIso : String
  nowMs : Nat
deriving Repr

/-- initialState from the reducer module (isOnline defaults to true). -/
def initialState : BoardState :=
  { lists := [], cards := [], syncQueue := [], lastSyncedAt := none,
    isOnline := true, history := [], historyIndex := -1, conflicts := [] }

/-- touchItem specialised to lists: bump lastModifiedAt and version.
The source computes (item.version || 0) + 1, which on Nat is version + 1. -/
def touchList (ctx : Ctx) (l : BList) : BList :=
  { l with lastModifiedAt := ctx.nowIso, version := l.version + 1 }

/-- touchItem specialised to cards. -/
def touchCard (ctx : Ctx) (c : Card) : Card :=
  { c with lastModifiedAt := ctx.nowIso, version := c.version + 1 }

/-- JS Array.prototype.indexOf over strings: index of first occurrence, -1 if absent. -/
def jsIndexOf (x : String) : List String → Int
  | [] => -1
  | y :: ys =>
    if y = x then 0
    else
      let r := jsIndexOf x ys
      if r = -1 then -1 else r + 1

/-- JS Array.prototype.findIndex: index of first match, -1 if none. -/
def jsFindIndex (p : α → Bool) : List α → Int
  | [] => -1
  | y :: ys =>
    if p y then 0
    else
      let r := jsFindIndex p ys
      if r = -1 then -1 else r + 1

/-- JS splice-insertion at a nonnegative index (an index beyond the end appends). -/
def insertAt (n : Nat) (x : α) (l : List α) : List α :=
  l.take n ++ x :: l.drop n

/-- Math.max over a nonempty spread of orders; the reducer guards the empty
case separately and uses -1 there. -/
def maxOrderD (xs : List Int) : Int :=
  match xs with
  | [] => -1
  | o :: os => os.foldl max o

/-- The index list remaining.map((c, idx) => ...).filter(listId match).map(idx)
computed inside MOVE_CARD. -/
def targetIdxs (targetListId : String) (l : List Card) : List Nat :=
  ((l.enum.filter (fun p => p.2.listId = targetListId)).map (fun p => p.1))

/-- The array slot MOVE_CARD inserts at: remaining.length for an empty
destination; otherwise the position of the boundedIndex-th destination card,
or one past the last destination card when boundedIndex equals the sibling
count (clause by clause from the source's insertAt computation). -/
def movePosition (remaining : List Card) (targetListId : String)
    (targetIndex : Option Int) : Nat :=
  let tIdxs := targetIdxs targetListId remaining
  match tIdxs with
  | [] => remaining.length
  | _ =>
    let len : Int := tIdxs.length
    let boundedIndex : Int := max 0 (min (targetIndex.getD len) len)
    if boundedIndex = len then tIdxs.getLastD 0 + 1
    else tIdxs.getD boundedIndex.toNat 0

/-- The requested index clamped into [0, destinationSiblingCount], as a
position in the destination list. -/
def moveClamped (ti : Option Int) (cnt : Nat) : Nat :=
  (max 0 (min (ti.getD (cnt : Int)) (cnt : Int))).toNat

/-- The per-card update REORDER_CARD maps over state.cards: cards of other
lists pass through; cards of the reordered list take their index in the
reordered sequence as new order, touched only when it changed. -/
def reorderUpdate (listId : String) (ctx : Ctx) (reordered : List Card) (c : Card) : Card :=
  if ¬(c.listId = listId) then c
  else
    let newOrder := jsFindIndex (fun y => y.id = c.id) reordered
    if ¬(newOrder = c.order) then touchCard ctx { c with order := newOrder } else c

/-- Merge an UPDATE_CARD payload into a card ({ ...card, ...updates }). -/
def applyUpdates (c : Card) (u : CardUpdates) : Card :=
  { c with title := u.title.getD c.title,
           description := u.description.getD c.description,
           tags := u.tags.getD c.tags }

/-- The reducer's action union (ACTIONS in src/client/src/context). -/
inductive Action where
  | addList (title : String)
  | renameList (listId : String) (title : String)
  | archiveList (listId : String)
  | restoreList (listId : String)
  | reorderLists (listIds : List String)
  | addCard (listId : String) (title : String) (description : String) (tags : List String)
  | updateCard (cardId : String) (updates : CardUpdates)
  | deleteCard (cardId : String)
  | moveCard (cardId : String) (sourceListId : String) (targetListId : String)
      (targetIndex : Option Int)
  | reorderCard (cardId : String) (listId : String) (newIndex : Nat)
  | setBoard (lists : Option (List BList)) (cards : Option (List Card))
  | clearBoard
  | markSynced
  | clearQueue
  | removeFromQueue (queueId : String)
  | setOnlineStatus (b : Bool)
  | pushHistory
  | undo
  | redo
  | applyServerState (lists : Option (List BList)) (cards : Option (List Card))
      (lastSyncedAt : Option String)
  | mergeConflict (c : Conflict)
  | resolveConflict (conflictId : String) (resolution : String)
deriving DecidableEq, Repr

/-- The boardReducer used by BoardProvider (src/client/src/context), one case
per action, translated clause by clause. historyIndex stays an Int because the
source initialises it to -1. In UNDO/REDO the source indexes the history array
unconditionally; the none branches below cover out-of-range indices that the
guards make unreachable from reachable states. In RESOLVE_CONFLICT with
resolution "server", the source splices conflict.serverVersion into the matching
collection; a serverVersion of the other entity kind would make the JS array
heterogeneous, which the typed embedding renders as leaving the item unchanged
(unreachable for conflicts built by checkForConflicts, which pairs like kinds). -/
def boardReducer (s : BoardState) (action : Action) (ctx : Ctx) : BoardState :=
  match action with
  | .addList title =>
    let maxOrder : Int :=
      match s.lists.map (fun l => l.order) with
      | [] => -1
      | o :: os => os.foldl max o
    let newList : BList :=
      { id := ctx.uuid1, title := title, order := maxOrder + 1, archived := false,
        createdAt := ctx.nowIso, lastModifiedAt := ctx.nowIso, version := 1 }
    { s with lists := s.lists ++ [newList],
             syncQueue := s.syncQueue ++
               [⟨"CREATE_LIST", .createListData newList, ctx.nowMs, ctx.uuid2⟩] }
  | .renameList listId title =>
    let updatedList := s.lists.find? (fun l => l.id = listId)
    { s with
      lists := s.lists.map (fun l =>
        if l.id = listId then touchList ctx { l with title := title } else l),
      syncQueue := s.syncQueue ++
        [⟨"UPDATE_LIST",
          .updateListFields listId title (((updatedList.map (fun l => l.version)).getD 0) + 1),
          ctx.nowMs, ctx.uuid1⟩] }
  | .archiveList listId =>
    { s with
      lists := s.lists.map (fun l =>
        if l.id = listId then touchList ctx { l with archived := true } else l),
      syncQueue := s.syncQueue ++
        [⟨"ARCHIVE_LIST", .archiveListData listId, ctx.nowMs, ctx.uuid1⟩] }
  | .restoreList listId =>
    { s with
      lists := s.lists.map (fun l =>
        if l.id = listId then touchList ctx { l with archived := false } else l),
      syncQueue := s.syncQueue ++
        [⟨"RESTORE_LIST", .restoreListData listId, ctx.nowMs, ctx.uuid1⟩] }
  | .reorderLists listIds =>
    { s with
      lists := s.lists.map (fun l =>
        let newOrder := jsIndexOf l.id listIds
        if newOrder ≠ -1 ∧ newOrder ≠ l.order then touchList ctx { l with order := newOrder }
        else l),
      syncQueue := s.syncQueue ++
        [⟨"REORDER_LISTS", .reorderListsData listIds, ctx.nowMs, ctx.uuid1⟩] }
  | .addCard listId title description tags =>
    let listCards := s.cards.filter (fun c => c.listId = listId)
    let maxOrder : Int :=
      match listCards.map (fun c => c.order) with
      | [] => -1
      | o :: os => os.foldl max o
    let newCard : Card :=
      { id := ctx.uuid1, listId := listId, title := title, description := description,
        tags := tags, order := maxOrder + 1, createdAt := ctx.nowIso,
        lastModifiedAt := ctx.nowIso, version := 1 }
    { s with cards := s.cards ++ [newCard],
             syncQueue := s.syncQueue ++
               [⟨"CREATE_CARD", .createCardData newCard, ctx.nowMs, ctx.uuid2⟩] }
  | .updateCard cardId updates =>
    { s with
      cards := s.cards.map (fun c =>
        if c.id = cardId then touchCard ctx (applyUpdates c updates) else c),
      syncQueue := s.syncQueue ++
        [⟨"UPDATE_CARD", .updateCardFields cardId updates, ctx.nowMs, ctx.uuid1⟩] }
  | .deleteCard cardId =>
    { s with
      cards := s.cards.filter (fun c => ¬(c.id = cardId)),
      syncQueue := s.syncQueue ++
        [⟨"DELETE_CARD", .deleteCardData cardId, ctx.nowMs, ctx.uuid1⟩] }
  | .moveCard cardId sourceListId targetListId targetIndex =>
    match s.cards.find? (fun c => c.id = cardId) with
    | none => s
    | some card =>
      let remaining := s.cards.filter (fun c => ¬(c.id = cardId))
      let movedCard :=
        touchCard ctx { card with listId := targetListId, order := targetIndex.getD 0 }
      { s with cards := insertAt (movePosition remaining targetListId targetIndex) movedCard remaining,
               syncQueue := s.syncQueue ++
                 [⟨"MOVE_CARD",
                   .moveCardData cardId sourceListId targetListId targetIndex,
                   ctx.nowMs, ctx.uuid1⟩] }
  | .reorderCard cardId listId newIndex =>
    let listCards :=
      (s.cards.filter (fun c => c.listId = listId)).mergeSort (fun a b => a.order ≤ b.order)
    match listCards.find? (fun c => c.id = cardId) with
    | none => s
    | some cardToMove =>
      let oldIndex := (jsFindIndex (fun c => c = cardToMove) listCards).toNat
      if (oldIndex : Int) = (newIndex : Int) then s
      else
        let removed := listCards.take oldIndex ++ listCards.drop (oldIndex + 1)
        let reordered := insertAt newIndex cardToMove removed
        { s with
          cards := s.cards.map (reorderUpdate listId ctx reordered),
          syncQueue := s.syncQueue ++
            [⟨"REORDER_CARD", .reorderCardData cardId listId newIndex, ctx.nowMs, ctx.uuid1⟩] }
  | .setBoard lists cards =>
    { s with lists := lists.getD s.lists, cards := cards.getD s.cards }
  | .clearBoard =>
    { s with lists := [], cards := [] }
  | .markSynced =>
    { s with lastSyncedAt := some ctx.nowIso }
  | .clearQueue =>
    { s with syncQueue := [] }
  | .removeFromQueue queueId =>
    { s with syncQueue := s.syncQueue.filter (fun item => ¬(item.id = queueId)) }
  | .setOnlineStatus b =>
    { s with isOnline := b }
  | .pushHistory =>
    let newHistory :=
      s.history.take (s.historyIndex + 1).toNat ++ [⟨s.lists, s.cards⟩]
    let newHistory2 := if newHistory.length > 50 then newHistory.drop 1 else newHistory
    { s with history := newHistory2, historyIndex := (newHistory2.length : Int) - 1 }
  | .undo =>
    if s.historyIndex ≤ 0 then s
    else
      match s.history.get? (s.historyIndex - 1).toNat with
      | none => s
      | some prev =>
        { s with lists := prev.lists, cards := prev.cards,
                 historyIndex := s.historyIndex - 1 }
  | .redo =>
    if s.historyIndex ≥ (s.history.length : Int) - 1 then s
    else
      match s.history.get? (s.historyIndex + 1).toNat with
      | none => s
      | some next =>
        { s with lists := next.lists, cards := next.cards,
                 historyIndex := s.historyIndex + 1 }
  | .applyServerState lists cards lastSyncedAt =>
    { s with lists := lists.getD s.lists, cards := cards.getD s.cards,
             lastSyncedAt := match lastSyncedAt with
               | some t => some t
               | none => s.lastSyncedAt }
  | .mergeConflict c =>
    { s with conflicts := s.conflicts ++ [c] }
  | .resolveConflict conflictId resolution =>
    match s.conflicts.find? (fun c => c.id = conflictId) with
    | none => s
    | some conflict =>
      let s1 :=
        if resolution = "local" then
          if conflict.ctype = "card" then
            match s.cards.find? (fun c => c.id = conflict.itemId) with
            | some currentCard =>
              { s with syncQueue := s.syncQueue ++
                  [⟨"UPDATE_CARD",
                    .updateCardFull { currentCard with version := conflict.serverVersion.version + 1 },
                    ctx.nowMs, ctx.uuid1⟩] }
            | none => s
          else if conflict.ctype = "list" then
            match s.lists.find? (fun l => l.id = conflict.itemId) with
            | some currentList =>
              { s with syncQueue := s.syncQueue ++
                  [⟨"UPDATE_LIST",
                    .updateListFull { currentList with version := conflict.serverVersion.version + 1 },
                    ctx.nowMs, ctx.uuid1⟩] }
            | none => s
          else s
        else if resolution = "server" then
          if conflict.ctype = "card" then
            match conflict.serverVersion with
            | .card sv =>
              { s with cards := s.cards.map (fun c =>
                  if c.id = conflict.itemId then sv else c) }
            | .list _ => s
          else if conflict.ctype = "list" then
            match conflict.serverVersion with
            | .list sv =>
              { s with lists := s.lists.map (fun l =>
                  if l.id = conflict.itemId then sv else l) }
            | .card _ => s
          else s
        else s
      { s1 with conflicts := s1.conflicts.filter (fun c => ¬(c.id = conflictId)) }

/-- Content projection used by checkForConflicts: JSON.stringify of the item
with lastModifiedAt and version replaced by constants (and syncStatus, a field
no entity of this codebase carries, dropped). Two cards stringify equal exactly
when their scrubbed records are equal. -/
def scrubCard (c : Card) : Card :=
  { c with lastModifiedAt := "", version := 0 }

/-- Content projection for lists, as for cards. -/
def scrubList (l : BList) : BList :=
  { l with lastModifiedAt := "", version := 0 }

/-- checkForConflicts from src/client/src/services/api.js, at card shape.
freshId is the uuidv4() draw and now the detection timestamp. The type tag is
localItem.listId ? card : list, so an empty listId is tagged list. -/
def checkForConflictsCard (localItem serverItem : Option Card)
    (freshId now : String) : Option Conflict :=
  match serverItem with
  | none => none
  | some si =>
    match localItem with
    | none => none
    | some li =>
      if si.version > li.version then
        if ¬(scrubCard li = scrubCard si) then
          some { id := freshId, itemId := li.id,
                 ctype := if ¬(li.listId = "") then "card" else "list",
                 localVersion := .card li, serverVersion := .card si,
                 detectedAt := now }
        else none
      else none

/-- checkForConflicts at list shape; a list has no listId field, so the
source's localItem.listId is undefined and the type tag is always list. -/
def checkForConflictsList (localItem serverItem : Option BList)
    (freshId now : String) : Option Conflict :=
  match serverItem with
  | none => none
  | some si =>
    match localItem with
    | none => none
    | some li =>
      if si.version > li.version then
        if ¬(scrubList li = scrubList si) then
          some { id := freshId, itemId := li.id, ctype := "list",
                 localVersion := .list li, serverVersion := .list si,
                 detectedAt := now }
        else none
      else none

/-- One per-entry result of api.syncChanges. -/
structure SyncResultEntry where
  changeId : String
  success : Bool
deriving DecidableEq, Repr

/-- The remote snapshot returned alongside the results. -/
structure ServerSnapshot where
  lists : List BList
  cards : List Card
deriving DecidableEq, Repr

/-- The conflict-detection pass of processQueue (useOfflineSync.js lines
74-99): walk the server lists then the server cards, check only entities also
present locally, and collect the conflicts in order. ids supplies the uuidv4()
draw for each conflict found. -/
def detectConflicts (s : BoardState) (server : ServerSnapshot)
    (ids : Nat → String) (now : String) : List Conflict :=
  let afterLists := server.lists.foldl (fun acc sl =>
    match s.lists.find? (fun l => l.id = sl.id) with
    | some ll =>
      match checkForConflictsList (some ll) (some sl) (ids acc.length) now with
      | some cf => acc ++ [cf]
      | none => acc
    | none => acc) []
  server.cards.foldl (fun acc sc =>
    match s.cards.find? (fun c => c.id = sc.id) with
    | some lc =>
      match checkForConflictsCard (some lc) (some sc) (ids acc.length) now with
      | some cf => acc ++ [cf]
      | none => acc
    | none => acc) afterLists

/-- The reconciliation tail of processQueue (useOfflineSync.js lines 59-99):
remove each successfully pushed entry from the queue by its id, dispatch
MARK_SYNCED, then detect conflicts against the state captured at cycle start
and dispatch MERGE_CONFLICT for each. -/
def processQueueModel (s : BoardState) (results : List SyncResultEntry)
    (server : ServerSnapshot) (ids : Nat → String) (ctx : Ctx) : BoardState :=
  let successfulIds := (results.filter (fun r => r.success)).map (fun r => r.changeId)
  let s1 := successfulIds.foldl (fun st qid => boardReducer st (.removeFromQueue qid) ctx) s
  let s2 := boardReducer s1 .markSynced ctx
  let conflicts := detectConflicts s server ids ctx.nowIso
  conflicts.foldl (fun st c => boardReducer st (.mergeConflict c) ctx) s2

end Trello

namespace Trello.Legacy

/-- Queue entry of the legacy reducer (src/client/context/boardReducer.js):
{ type, data, timestamp }, with no entry id. -/
structure LegacyQueueEntry where
  qtype : String
  data : Trello.QueueData
  timestamp : Nat
deriving DecidableEq, Repr

/-- The slice of the legacy reducer state the embedded cases touch. -/
structure LegacyState where
  lists : List Trello.BList
  cards : List Trello.Card
  syncQueue : List LegacyQueueEntry
deriving DecidableEq, Repr

/-- Math.max(0, ...xs): fold max over the spread with 0 seeded first. -/
def jsMathMax0 (xs : List Int) : Int :=
  xs.foldl max 0

/-- ADD_LIST of the legacy reducer: order = Math.max(0, ...orders) + 1. -/
def addList (s : LegacyState) (title : String) (ctx : Trello.Ctx) : LegacyState :=
  let maxOrder := jsMathMax0 (s.lists.map (fun l => l.order))
  let newList : Trello.BList :=
    { id := ctx.uuid1, title := title, order := maxOrder + 1, archived := false,
      createdAt := ctx.nowIso, lastModifiedAt := ctx.nowIso, version := 1 }
  { s with lists := s.lists ++ [newList],
           syncQueue := s.syncQueue ++ [⟨"CREATE_LIST", .createListData newList, ctx.nowMs⟩] }

/-- ADD_CARD of the legacy reducer: order = Math.max(0, ...orders, 0) + 1,
and the payload carries only listId and title. -/
def addCard (s : LegacyState) (listId title : String) (ctx : Trello.Ctx) : LegacyState :=
  let listCards := s.cards.filter (fun c => c.listId = listId)
  let maxOrder := jsMathMax0 (listCards.map (fun c => c.order) ++ [0])
  let newCard : Trello.Card :=
    { id := ctx.uuid1, listId := listId, title := title, description := "", tags := [],
      order := maxOrder + 1, createdAt := ctx.nowIso, lastModifiedAt := ctx.nowIso,
      version := 1 }
  { s with cards := s.cards ++ [newCard],
           syncQueue := s.syncQueue ++ [⟨"CREATE_CARD", .createCardData newCard, ctx.nowMs⟩] }

end Trello.Legacy

namespace Trello

/-- The user-initiated mutating actions: exactly the dispatches that
useBoardState.js brackets with PUSH_HISTORY before and after. -/
inductive UAction where
  | addList (title : String)
  | renameList (listId : String) (title : String)
  | archiveList (listId : String)
  | restoreList (listId : String)
  | reorderLists (listIds : List String)
  | addCard (listId : String) (title : String) (description : String) (tags : List String)
  | updateCard (cardId : String) (updates : CardUpdates)
  | deleteCard (cardId : String)
  | moveCard (cardId : String) (sourceListId : String) (targetListId : String)
      (targetIndex : Option Int)
  | reorderCard (cardId : String) (listId : String) (newIndex : Nat)
  | clearBoard
deriving DecidableEq, Repr

/-- Injection of user actions into the reducer's action union. -/
def UAction.toAction : UAction → Action
  | .addList t => .addList t
  | .renameList i t => .renameList i t
  | .archiveList i => .archiveList i
  | .restoreList i => .restoreList i
  | .reorderLists is => .reorderLists is
  | .addCard l t d tg => .addCard l t d tg
  | .updateCard i u => .updateCard i u
  | .deleteCard i => .deleteCard i
  | .moveCard c s t i => .moveCard c s t i
  | .reorderCard c l n => .reorderCard c l n
  | .clearBoard => .clearBoard

/-- One user action as dispatched through useBoardState: PUSH_HISTORY, the
action itself, PUSH_HISTORY again. -/
def bracketed (s : BoardState) (a : UAction) (ctx : Ctx) : BoardState :=
  boardReducer (boardReducer (boardReducer s .pushHistory ctx) a.toAction ctx) .pushHistory ctx

/-- A sequence of bracketed user actions, each with its own ambient context. -/
def runBracketed (s : BoardState) (run : List (UAction × Ctx)) : BoardState :=
  run.foldl (fun st pc => bracketed st pc.1 pc.2) s

/-- A sequence of plain (unbracketed) user actions. -/
def runU (s : BoardState) (run : List (UAction × Ctx)) : BoardState :=
  run.foldl (fun st pc => boardReducer st pc.1.toAction pc.2) s

/-- k UNDO dispatches (the UNDO case reads no ambient context). -/
def undoTimes (ctx : Ctx) : Nat → BoardState → BoardState
  | 0, s => s
  | k + 1, s => undoTimes ctx k (boardReducer s .undo ctx)

/-- k REDO dispatches. -/
def redoTimes (ctx : Ctx) : Nat → BoardState → BoardState
  | 0, s => s
  | k + 1, s => redoTimes ctx k (boardReducer s .redo ctx)

/-- Positions (in left-to-right order) of the elements satisfying p;
recursive counterpart of the enum/filter/map pipeline in MOVE_CARD. -/
def pidxs (p : α → Bool) : List α → List Nat
  | [] => []
  | a :: t => if p a then 0 :: (pidxs p t).map (· + 1) else (pidxs p t).map (· + 1)

/-- Stable insertion into a list ascending by order (an element is placed
before the first strictly-or-equally later one, keeping ties in original
relative order, as JS stable Array.prototype.sort does). -/
def insertSorted (a : Card) : List Card → List Card
  | [] => [a]
  | b :: t => if a.order ≤ b.order then a :: b :: t else b :: insertSorted a t

/-- The destination-list rendering order: ListColumn.jsx sorts the list's
cards by their order field with a stable ascending sort. -/
def sortedByOrder : List Card → List Card
  | [] => []
  | a :: t => insertSorted a (sortedByOrder t)

/-- Fixed ambient context used by concrete witnesses. -/
def sampleCtx : Ctx := ⟨"u1", "u2", "T", 0⟩

/-- Concrete card with order 5 in list L. -/
def cardA : Card :=
  { id := "a", listId := "L", title := "A", description := "", tags := [], order := 5,
    createdAt := "", lastModifiedAt := "", version := 1 }

/-- Concrete card with order 7 in list L. -/
def cardB : Card :=
  { id := "b", listId := "L", title := "B", description := "", tags := [], order := 7,
    createdAt := "", lastModifiedAt := "", version := 1 }

/-- Concrete card in list M, to be moved into L. -/
def cardX : Card :=
  { id := "x", listId := "M", title := "X", description := "", tags := [], order := 0,
    createdAt := "", lastModifiedAt := "", version := 1 }

/-- Board holding cardA, cardB (list L) and cardX (list M). -/
def moveSampleState : BoardState := { initialState with cards := [cardA, cardB, cardX] }

/-- Concrete local list. -/
def backlogList : BList :=
  { id := "l1", title := "Backlog", order := 0, archived := false, createdAt := "",
    lastModifiedAt := "", version := 1 }

/-- Concrete remote-only list (present only in the pulled snapshot). -/
def remoteList : BList :=
  { id := "l2", title := "Remote", order := 0, archived := false, createdAt := "",
    lastModifiedAt := "", version := 1 }

/-- A server copy of cardA that is ahead in version and differs in content. -/
def serverCardA : Card :=
  { cardA with version := 5, title := "Fix critical bug", lastModifiedAt := "zz" }

/-- A detected conflict on cardA against serverCardA. -/
def sampleConflict : Conflict :=
  { id := "c1", itemId := "a", ctype := "card", localVersion := .card cardA,
    serverVersion := .card serverCardA, detectedAt := "T" }

/-- Board holding cardA together with its open conflict. -/
def conflictState : BoardState :=
  { initialState with cards := [cardA], conflicts := [sampleConflict] }

/-- Board holding the open conflict while the conflicted card is gone. -/
def vanishedState : BoardState :=
  { initialState with cards := [], conflicts := [sampleConflict] }

/-- The version discipline one reducer step must satisfy for the entity whose
id is x, over a collection with id projection idf and version projection vf:
an entity present before and after keeps its version or gains exactly 1, an
entity that appears has version 1, and when the step's fresh id differs from x
an absent entity stays absent. -/
def VersionStep {α : Type _} (idf : α → String) (vf : α → Nat)
    (old new : List α) (uuid x : String) : Prop :=
  (∀ cd cd', old.find? (fun k => idf k = x) = some cd →
    new.find? (fun k => idf k = x) = some cd' →
    vf cd' = vf cd ∨ vf cd' = vf cd + 1) ∧
  (∀ cd', old.find? (fun k => idf k = x) = none →
    new.find? (fun k => idf k = x) = some cd' → vf cd' = 1) ∧
  (uuid ≠ x → old.find? (fun k => idf k = x) = none →
    new.find? (fun k => idf k = x) = none)

/-- The relation UNDO/REDO maintain between a state and a fixed history h:
the state's history is h, its cursor is in range, and its lists/cards slice
equals the snapshot under the cursor. -/
def Tracking (h : List Snapshot) (s : BoardState) : Prop :=
  s.history = h ∧ 0 ≤ s.historyIndex ∧ s.historyIndex < (h.length : Int) ∧
  h.get? s.historyIndex.toNat = some ⟨s.lists, s.cards⟩

/-! Helper lemmas shared across the claim theorems. -/

theorem find?_map_preserve {α : Type _} (f : α → α) (pr : α → Bool)
    (hf : ∀ a, pr (f a) = pr a) :
    ∀ l : List α, (l.map f).find? pr = (l.find? pr).map f := by
  intro l
  induction l with
  | nil => rfl
  | cons a t ih =>
    cases hp : pr a with
    | true =>
      rw [List.map_cons, List.find?_cons_of_pos _ (by rw [hf]; exact hp),
        List.find?_cons_of_pos _ hp]
      rfl
    | false =>
      rw [List.map_cons, List.find?_cons_of_neg _ (by rw [hf, hp]; simp),
        List.find?_cons_of_neg _ (by rw [hp]; simp), ih]

theorem find?_filter_of_imp {α : Type _} (pr q : α → Bool)
    (himp : ∀ a, pr a = true → q a = true) :
    ∀ l : List α, (l.filter q).find? pr = l.find? pr := by
  intro l
  induction l with
  | nil => rfl
  | cons a t ih =>
    rw [List.filter_cons]
    by_cases hq : q a = true
    · rw [if_pos hq]
      cases hp : pr a with
      | true => rw [List.find?_cons_of_pos _ hp, List.find?_cons_of_pos _ hp]
      | false =>
        rw [List.find?_cons_of_neg _ (by simp [hp]),
          List.find?_cons_of_neg _ (by simp [hp]), ih]
    · rw [if_neg hq]
      have hp : pr a = false := by
        cases hpa : pr a with
        | true => exact absurd (himp a hpa) hq
        | false => rfl
      rw [List.find?_cons_of_neg _ (by simp [hp]), ih]

theorem find?_filter_none {α : Type _} (pr q : α → Bool)
    (hexc : ∀ a, pr a = true → q a = false) (l : List α) :
    (l.filter q).find? pr = none := by
  rw [List.find?_eq_none]
  intro y hy
  have hq : q y = true := (List.mem_filter.mp hy).2
  intro hpy
  rw [hexc y hpy] at hq
  cases hq

theorem find?_insertAt_of_neg {α : Type _} (pr : α → Bool) (x : α)
    (hx : pr x = false) (n : Nat) (l : List α) :
    (insertAt n x l).find? pr = l.find? pr := by
  unfold insertAt
  rw [List.find?_append, List.find?_cons_of_neg _ (by simp [hx]), ← List.find?_append,
    List.take_append_drop]

theorem find?_insertAt_of_all_neg {α : Type _} (pr : α → Bool) (x : α)
    (hx : pr x = true) (n : Nat) (l : List α) (hl : l.find? pr = none) :
    (insertAt n x l).find? pr = some x := by
  unfold insertAt
  rw [List.find?_append]
  have h1 : (l.take n).find? pr = none := by
    rw [List.find?_eq_none] at hl ⊢
    intro y hy
    exact hl y (List.take_subset n l hy)
  rw [h1, List.find?_cons_of_pos _ hx]
  rfl

theorem vstep_same {α : Type _} (idf : α → String) (vf : α → Nat)
    (l : List α) (uuid x : String) : VersionStep idf vf l l uuid x := by
  refine ⟨?_, ?_, ?_⟩
  · intro cd cd' h1 h2
    rw [h1] at h2
    exact Or.inl (by rw [Option.some.inj h2])
  · intro cd' h1 h2
    rw [h1] at h2
    cases h2
  · intro _ h1
    exact h1

theorem vstep_map {α : Type _} (idf : α → String) (vf : α → Nat)
    (l : List α) (f : α → α) (uuid x : String)
    (hid : ∀ a, idf (f a) = idf a)
    (hv : ∀ a, vf (f a) = vf a ∨ vf (f a) = vf a + 1) :
    VersionStep idf vf l (l.map f) uuid x := by
  have hf : ∀ a, (fun k => decide (idf k = x)) (f a) = (fun k => decide (idf k = x)) a := by
    intro a
    simp [hid a]
  have hmap := find?_map_preserve f (fun k => decide (idf k = x)) hf l
  refine ⟨?_, ?_, ?_⟩
  · intro cd cd' h1 h2
    rw [hmap, h1] at h2
    have : f cd = cd' := Option.some.inj h2
    rw [← this]
    exact hv cd
  · intro cd' h1 h2
    rw [hmap, h1] at h2
    cases h2
  · intro _ h1
    rw [hmap, h1]
    rfl

theorem vstep_append {α : Type _} (idf : α → String) (vf : α → Nat)
    (l : List α) (nc : α) (uuid x : String)
    (hnc : idf nc = uuid) (hv : vf nc = 1) :
    VersionStep idf vf l (l ++ [nc]) uuid x := by
  refine ⟨?_, ?_, ?_⟩
  · intro cd cd' h1 h2
    rw [List.find?_append, h1] at h2
    exact Or.inl (by rw [Option.some.inj h2])
  · intro cd' h1 h2
    rw [List.find?_append, h1] at h2
    cases hfind : List.find? (fun k => decide (idf k = x)) [nc] with
    | none =>
      rw [hfind] at h2
      cases h2
    | some y =>
      rw [hfind] at h2
      have hy : y ∈ [nc] := List.mem_of_find?_eq_some hfind
      have hyn : y = nc := by simpa using hy
      have hcd : y = cd' := Option.some.inj h2
      rw [← hcd, hyn]
      exact hv
  · intro hu h1
    rw [List.find?_append, h1]
    have hnone : List.find? (fun k => decide (idf k = x)) [nc] = none := by
      rw [List.find?_eq_none]
      intro z hz
      have hz2 : z = nc := by simpa using hz
      simp only [decide_eq_true_eq]
      rw [hz2, hnc]
      exact hu
    rw [hnone]
    rfl

theorem vstep_filter_keep {α : Type _} (idf : α → String) (vf : α → Nat)
    (l : List α) (q : α → Bool) (uuid x : String)
    (himp : ∀ a, idf a = x → q a = true) :
    VersionStep idf vf l (l.filter q) uuid x := by
  have hsame := find?_filter_of_imp (fun k => decide (idf k = x)) q
    (fun a ha => himp a (by simpa using ha)) l
  refine ⟨?_, ?_, ?_⟩
  · intro cd cd' h1 h2
    rw [hsame, h1] at h2
    exact Or.inl (by rw [Option.some.inj h2])
  · intro cd' h1 h2
    rw [hsame, h1] at h2
    cases h2
  · intro _ h1
    rw [hsame]
    exact h1

theorem vstep_absent {α : Type _} (idf : α → String) (vf : α → Nat)
    (l new : List α) (uuid x : String)
    (hnone : new.find? (fun k => idf k = x) = none) :
    VersionStep idf vf l new uuid x := by
  refine ⟨?_, ?_, ?_⟩
  · intro cd cd' _ h2
    rw [hnone] at h2
    cases h2
  · intro cd' _ h2
    rw [hnone] at h2
    cases h2
  · intro _ _
    exact hnone

theorem vstep_of_find?_eq {α : Type _} (idf : α → String) (vf : α → Nat)
    (l new : List α) (uuid x : String)
    (h : new.find? (fun k => idf k = x) = l.find? (fun k => idf k = x)) :
    VersionStep idf vf l new uuid x := by
  refine ⟨?_, ?_, ?_⟩
  · intro cd cd' h1 h2
    rw [h, h1] at h2
    exact Or.inl (by rw [Option.some.inj h2])
  · intro cd' h1 h2
    rw [h, h1] at h2
    cases h2
  · intro _ h1
    rw [h]
    exact h1

theorem reorderUpdate_id (listId : String) (ctx : Ctx) (rear : List Card) :
    ∀ c : Card, (reorderUpdate listId ctx rear c).id = c.id := by
  intro c
  unfold reorderUpdate
  by_cases h1 : ¬(c.listId = listId)
  · rw [if_pos h1]
  · rw [if_neg h1]
    show (if ¬((jsFindIndex (fun y => y.id = c.id) rear) = c.order) then
      touchCard ctx { c with order := jsFindIndex (fun y => y.id = c.id) rear } else c).id = c.id
    by_cases h2 : ¬((jsFindIndex (fun y => y.id = c.id) rear) = c.order)
    · rw [if_pos h2]; rfl
    · rw [if_neg h2]

theorem reorderUpdate_version (listId : String) (ctx : Ctx) (rear : List Card) :
    ∀ c : Card, (reorderUpdate listId ctx rear c).version = c.version ∨
      (reorderUpdate listId ctx rear c).version = c.version + 1 := by
  intro c
  unfold reorderUpdate
  by_cases h1 : ¬(c.listId = listId)
  · rw [if_pos h1]; exact Or.inl rfl
  · rw [if_neg h1]
    show (if ¬((jsFindIndex (fun y => y.id = c.id) rear) = c.order) then
      touchCard ctx { c with order := jsFindIndex (fun y => y.id = c.id) rear } else c).version =
        c.version ∨ _ = c.version + 1
    by_cases h2 : ¬((jsFindIndex (fun y => y.id = c.id) rear) = c.order)
    · rw [if_pos h2]; exact Or.inr rfl
    · rw [if_neg h2]; exact Or.inl rfl

theorem reorderCard_cards_cases (s : BoardState) (cid lid : String) (n : Nat) (ctx : Ctx) :
    (boardReducer s (.reorderCard cid lid n) ctx).cards = s.cards ∨
    ∃ rear, (boardReducer s (.reorderCard cid lid n) ctx).cards =
      s.cards.map (reorderUpdate lid ctx rear) := by
  simp only [boardReducer]
  split
  · left; rfl
  · split
    · left; rfl
    · right; exact ⟨_, rfl⟩

theorem step_version_cards (s : BoardState) (a : UAction) (ctx : Ctx) (x : String) :
    VersionStep Card.id Card.version s.cards
      (boardReducer s a.toAction ctx).cards ctx.uuid1 x := by
  cases a with
  | addList t => exact vstep_same _ _ _ _ _
  | renameList lid t => exact vstep_same _ _ _ _ _
  | archiveList lid => exact vstep_same _ _ _ _ _
  | restoreList lid => exact vstep_same _ _ _ _ _
  | reorderLists ids => exact vstep_same _ _ _ _ _
  | clearBoard => exact vstep_absent _ _ _ _ _ _ rfl
  | addCard lid t d tg => exact vstep_append _ _ _ _ _ _ rfl rfl
  | updateCard cid u =>
    apply vstep_map
    · intro c
      by_cases h : c.id = cid
      · rw [if_pos h]; rfl
      · rw [if_neg h]
    · intro c
      by_cases h : c.id = cid
      · rw [if_pos h]; exact Or.inr rfl
      · rw [if_neg h]; exact Or.inl rfl
  | deleteCard cid =>
    by_cases hx : cid = x
    · apply vstep_absent
      apply find?_filter_none
      intro c hc
      simp only [decide_eq_true_eq] at hc
      simp only [decide_not, Bool.not_eq_true', decide_eq_true_eq]
      rw [hc, hx]
      simp
    · apply vstep_filter_keep
      intro c hc
      simp only [decide_not, Bool.not_eq_true', decide_eq_false_iff_not]
      intro hcon
      exact hx (by rw [← hc, hcon])
  | moveCard cid srcL tgtL tI =>
    cases hfind : s.cards.find? (fun c => c.id = cid) with
    | none =>
      have hred : boardReducer s (UAction.moveCard cid srcL tgtL tI).toAction ctx = s := by
        simp only [UAction.toAction, boardReducer, hfind]
      rw [hred]
      exact vstep_same _ _ _ _ _
    | some card =>
      have hcardid : card.id = cid := by
        have h := List.find?_some hfind
        simpa using h
      have hred : (boardReducer s (UAction.moveCard cid srcL tgtL tI).toAction ctx).cards =
          insertAt (movePosition (s.cards.filter (fun c => ¬(c.id = cid))) tgtL tI)
            (touchCard ctx { card with listId := tgtL, order := tI.getD 0 })
            (s.cards.filter (fun c => ¬(c.id = cid))) := by
        simp only [UAction.toAction, boardReducer, hfind]
      rw [hred]
      by_cases hx : cid = x
      · subst hx
        have hrem : (s.cards.filter (fun c => ¬(c.id = cid))).find?
            (fun k => k.id = cid) = none := by
          apply find?_filter_none
          intro c hc
          simp only [decide_eq_true_eq] at hc
          simp only [decide_not, Bool.not_eq_true', decide_eq_true_eq]
          simp [hc]
        have hmoved : (fun k : Card => decide (k.id = cid))
            (touchCard ctx { card with listId := tgtL, order := tI.getD 0 }) = true := by
          simp [touchCard, hcardid]
        have hnew := find?_insertAt_of_all_neg (fun k : Card => decide (k.id = cid))
          (touchCard ctx { card with listId := tgtL, order := tI.getD 0 }) hmoved
          (movePosition (s.cards.filter (fun c => ¬(c.id = cid))) tgtL tI)
          (s.cards.filter (fun c => ¬(c.id = cid))) hrem
        refine ⟨?_, ?_, ?_⟩
        · intro cd cd' h1 h2
          have hcd : cd = card := by
            rw [hfind] at h1
            exact (Option.some.inj h1).symm
          rw [hnew] at h2
          have hcd' : cd' = touchCard ctx { card with listId := tgtL, order := tI.getD 0 } :=
            (Option.some.inj h2).symm
          show cd'.version = cd.version ∨ cd'.version = cd.version + 1
          right
          rw [hcd', hcd]
          rfl
        · intro cd' h1 _
          rw [hfind] at h1
          cases h1
        · intro _ h1
          rw [hfind] at h1
          cases h1
      · apply vstep_of_find?_eq
        have hmoved : (fun k : Card => decide (k.id = x))
            (touchCard ctx { card with listId := tgtL, order := tI.getD 0 }) = false := by
          simp only [decide_eq_false_iff_not]
          show card.id ≠ x
          rw [hcardid]
          exact hx
        rw [find?_insertAt_of_neg (fun k : Card => decide (k.id = x))
          (touchCard ctx { card with listId := tgtL, order := tI.getD 0 }) hmoved
          (movePosition (s.cards.filter (fun c => ¬(c.id = cid))) tgtL tI)
          (s.cards.filter (fun c => ¬(c.id = cid)))]
        apply find?_filter_of_imp
        intro c hc
        simp only [decide_eq_true_eq] at hc
        simp only [decide_not, Bool.not_eq_true', decide_eq_false_iff_not]
        intro hcon
        exact hx (by rw [← hc, hcon])
  | reorderCard cid lid n =>
    rcases reorderCard_cards_cases s cid lid n ctx with hsame | ⟨rear, hmapped⟩
    · rw [show (boardReducer s (UAction.reorderCard cid lid n).toAction ctx).cards =
          (boardReducer s (.reorderCard cid lid n) ctx).cards from rfl, hsame]
      exact vstep_same _ _ _ _ _
    · rw [show (boardReducer s (UAction.reorderCard cid lid n).toAction ctx).cards =
          (boardReducer s (.reorderCard cid lid n) ctx).cards from rfl, hmapped]
      exact vstep_map _ _ _ _ _ _ (reorderUpdate_id lid ctx rear)
        (reorderUpdate_version lid ctx rear)

theorem moveCard_lists_same (s : BoardState) (cid srcL tgtL : String)
    (tI : Option Int) (ctx : Ctx) :
    (boardReducer s (.moveCard cid srcL tgtL tI) ctx).lists = s.lists := by
  simp only [boardReducer]
  split
  · rfl
  · rfl

theorem reorderCard_lists_same (s : BoardState) (cid lid : String) (n : Nat) (ctx : Ctx) :
    (boardReducer s (.reorderCard cid lid n) ctx).lists = s.lists := by
  simp only [boardReducer]
  split
  · rfl
  · split
    · rfl
    · rfl

theorem step_version_lists (s : BoardState) (a : UAction) (ctx : Ctx) (x : String) :
    VersionStep BList.id BList.version s.lists
      (boardReducer s a.toAction ctx).lists ctx.uuid1 x := by
  cases a with
  | addList t => exact vstep_append _ _ _ _ _ _ rfl rfl
  | renameList lid t =>
    apply vstep_map
    · intro l
      by_cases h : l.id = lid
      · rw [if_pos h]; rfl
      · rw [if_neg h]
    · intro l
      by_cases h : l.id = lid
      · rw [if_pos h]; exact Or.inr rfl
      · rw [if_neg h]; exact Or.inl rfl
  | archiveList lid =>
    apply vstep_map
    · intro l
      by_cases h : l.id = lid
      · rw [if_pos h]; rfl
      · rw [if_neg h]
    · intro l
      by_cases h : l.id = lid
      · rw [if_pos h]; exact Or.inr rfl
      · rw [if_neg h]; exact Or.inl rfl
  | restoreList lid =>
    apply vstep_map
    · intro l
      by_cases h : l.id = lid
      · rw [if_pos h]; rfl
      · rw [if_neg h]
    · intro l
      by_cases h : l.id = lid
      · rw [if_pos h]; exact Or.inr rfl
      · rw [if_neg h]; exact Or.inl rfl
  | reorderLists ids =>
    apply vstep_map
    · intro l
      show (if jsIndexOf l.id ids ≠ -1 ∧ jsIndexOf l.id ids ≠ l.order then
        touchList ctx { l with order := jsIndexOf l.id ids } else l).id = l.id
      by_cases h : jsIndexOf l.id ids ≠ -1 ∧ jsIndexOf l.id ids ≠ l.order
      · rw [if_pos h]; rfl
      · rw [if_neg h]
    · intro l
      show (if jsIndexOf l.id ids ≠ -1 ∧ jsIndexOf l.id ids ≠ l.order then
          touchList ctx { l with order := jsIndexOf l.id ids } else l).version = l.version ∨
        (if jsIndexOf l.id ids ≠ -1 ∧ jsIndexOf l.id ids ≠ l.order then
          touchList ctx { l with order := jsIndexOf l.id ids } else l).version = l.version + 1
      by_cases h : jsIndexOf l.id ids ≠ -1 ∧ jsIndexOf l.id ids ≠ l.order
      · rw [if_pos h]; exact Or.inr rfl
      · rw [if_neg h]; exact Or.inl rfl
  | addCard lid t d tg => exact vstep_same _ _ _ _ _
  | updateCard cid u => exact vstep_same _ _ _ _ _
  | deleteCard cid => exact vstep_same _ _ _ _ _
  | clearBoard => exact vstep_absent _ _ _ _ _ _ rfl
  | moveCard cid srcL tgtL tI =>
    rw [show (boardReducer s (UAction.moveCard cid srcL tgtL tI).toAction ctx).lists =
      (boardReducer s (.moveCard cid srcL tgtL tI) ctx).lists from rfl,
      moveCard_lists_same]
    exact vstep_same _ _ _ _ _
  | reorderCard cid lid n =>
    rw [show (boardReducer s (UAction.reorderCard cid lid n).toAction ctx).lists =
      (boardReducer s (.reorderCard cid lid n) ctx).lists from rfl,
      reorderCard_lists_same]
    exact vstep_same _ _ _ _ _

theorem runU_cons (s : BoardState) (pc : UAction × Ctx) (rest : List (UAction × Ctx)) :
    runU s (pc :: rest) = runU (boardReducer s pc.1.toAction pc.2) rest := rfl

theorem runU_absent_cards :
    ∀ (run : List (UAction × Ctx)) (s : BoardState) (x : String),
      (∀ pc ∈ run, pc.2.uuid1 ≠ x) →
      s.cards.find? (fun k => k.id = x) = none →
      (runU s run).cards.find? (fun k => k.id = x) = none := by
  intro run
  induction run with
  | nil => intro s x _ h1; exact h1
  | cons pc rest ih =>
    intro s x hfresh h1
    rw [runU_cons]
    exact ih (boardReducer s pc.1.toAction pc.2) x
      (fun q hq => hfresh q (List.mem_cons_of_mem pc hq))
      ((step_version_cards s pc.1 pc.2 x).2.2 (hfresh pc (List.mem_cons_self pc rest)) h1)

theorem runU_absent_lists :
    ∀ (run : List (UAction × Ctx)) (s : BoardState) (x : String),
      (∀ pc ∈ run, pc.2.uuid1 ≠ x) →
      s.lists.find? (fun k => k.id = x) = none →
      (runU s run).lists.find? (fun k => k.id = x) = none := by
  intro run
  induction run with
  | nil => intro s x _ h1; exact h1
  | cons pc rest ih =>
    intro s x hfresh h1
    rw [runU_cons]
    exact ih (boardReducer s pc.1.toAction pc.2) x
      (fun q hq => hfresh q (List.mem_cons_of_mem pc hq))
      ((step_version_lists s pc.1 pc.2 x).2.2 (hfresh pc (List.mem_cons_self pc rest)) h1)

theorem runU_mono_cards :
    ∀ (run : List (UAction × Ctx)) (s : BoardState) (x : String) (cd cd' : Card),
      (∀ pc ∈ run, pc.2.uuid1 ≠ x) →
      s.cards.find? (fun k => k.id = x) = some cd →
      (runU s run).cards.find? (fun k => k.id = x) = some cd' →
      cd.version ≤ cd'.version := by
  intro run
  induction run with
  | nil =>
    intro s x cd cd' _ h1 h2
    rw [show runU s ([] : List (UAction × Ctx)) = s from rfl, h1] at h2
    rw [Option.some.inj h2]
  | cons pc rest ih =>
    intro s x cd cd' hfresh h1 h2
    rw [runU_cons] at h2
    cases hmid : (boardReducer s pc.1.toAction pc.2).cards.find? (fun k => k.id = x) with
    | some mid =>
      have hstep := (step_version_cards s pc.1 pc.2 x).1 cd mid h1 hmid
      have hle : cd.version ≤ mid.version := by
        rcases hstep with h | h
        · omega
        · omega
      exact le_trans hle (ih (boardReducer s pc.1.toAction pc.2) x mid cd'
        (fun q hq => hfresh q (List.mem_cons_of_mem pc hq)) hmid h2)
    | none =>
      have habs := runU_absent_cards rest (boardReducer s pc.1.toAction pc.2) x
        (fun q hq => hfresh q (List.mem_cons_of_mem pc hq)) hmid
      rw [habs] at h2
      cases h2

theorem runU_mono_lists :
    ∀ (run : List (UAction × Ctx)) (s : BoardState) (x : String) (ld ld' : BList),
      (∀ pc ∈ run, pc.2.uuid1 ≠ x) →
      s.lists.find? (fun k => k.id = x) = some ld →
      (runU s run).lists.find? (fun k => k.id = x) = some ld' →
      ld.version ≤ ld'.version := by
  intro run
  induction run with
  | nil =>
    intro s x ld ld' _ h1 h2
    rw [show runU s ([] : List (UAction × Ctx)) = s from rfl, h1] at h2
    rw [Option.some.inj h2]
  | cons pc rest ih =>
    intro s x ld ld' hfresh h1 h2
    rw [runU_cons] at h2
    cases hmid : (boardReducer s pc.1.toAction pc.2).lists.find? (fun k => k.id = x) with
    | some mid =>
      have hstep := (step_version_lists s pc.1 pc.2 x).1 ld mid h1 hmid
      have hle : ld.version ≤ mid.version := by
        rcases hstep with h | h
        · omega
        · omega
      exact le_trans hle (ih (boardReducer s pc.1.toAction pc.2) x mid ld'
        (fun q hq => hfresh q (List.mem_cons_of_mem pc hq)) hmid h2)
    | none =>
      have habs := runU_absent_lists rest (boardReducer s pc.1.toAction pc.2) x
        (fun q hq => hfresh q (List.mem_cons_of_mem pc hq)) hmid
      rw [habs] at h2
      cases h2

theorem push_tracking (s : BoardState) (ctx : Ctx) :
    Tracking (boardReducer s .pushHistory ctx).history (boardReducer s .pushHistory ctx) ∧
    (boardReducer s .pushHistory ctx).historyIndex =
      ((boardReducer s .pushHistory ctx).history.length : Int) - 1 := by
  set nh := s.history.take (s.historyIndex + 1).toNat ++ [(⟨s.lists, s.cards⟩ : Snapshot)]
    with hnh
  have hred : boardReducer s .pushHistory ctx =
      { s with history := if nh.length > 50 then nh.drop 1 else nh,
               historyIndex :=
                 ((if nh.length > 50 then nh.drop 1 else nh).length : Int) - 1 } := rfl
  have hnhlen : 1 ≤ nh.length := by
    rw [hnh, List.length_append]
    simp
  have hlastnh : nh.get? (nh.length - 1) = some ⟨s.lists, s.cards⟩ := by
    rw [hnh, List.length_append]
    rw [List.get?_append_right (by simp)]
    simp
  by_cases hbig : nh.length > 50
  · have hred2 : boardReducer s .pushHistory ctx =
        { s with history := nh.drop 1, historyIndex := ((nh.drop 1).length : Int) - 1 } := by
      rw [hred, if_pos hbig]
    have hlen2 : (nh.drop 1).length = nh.length - 1 := by simp
    have hlast2 : (nh.drop 1).get? ((nh.drop 1).length - 1) = some ⟨s.lists, s.cards⟩ := by
      rw [List.get?_drop, hlen2]
      rw [show 1 + (nh.length - 1 - 1) = nh.length - 1 by omega]
      exact hlastnh
    rw [hred2]
    refine ⟨⟨rfl,
      by show (0 : Int) ≤ ((nh.drop 1).length : Int) - 1; rw [hlen2]; omega,
      by show ((nh.drop 1).length : Int) - 1 < ((nh.drop 1).length : Int); omega, ?_⟩, rfl⟩
    show (nh.drop 1).get? (((nh.drop 1).length : Int) - 1).toNat = some ⟨s.lists, s.cards⟩
    rw [show (((nh.drop 1).length : Int) - 1).toNat = (nh.drop 1).length - 1 by
      rw [hlen2]; omega]
    exact hlast2
  · have hred2 : boardReducer s .pushHistory ctx =
        { s with history := nh, historyIndex := (nh.length : Int) - 1 } := by
      rw [hred, if_neg hbig]
    rw [hred2]
    refine ⟨⟨rfl,
      by show (0 : Int) ≤ (nh.length : Int) - 1; omega,
      by show (nh.length : Int) - 1 < (nh.length : Int); omega, ?_⟩, rfl⟩
    show nh.get? ((nh.length : Int) - 1).toNat = some ⟨s.lists, s.cards⟩
    rw [show ((nh.length : Int) - 1).toNat = nh.length - 1 by omega]
    exact hlastnh

theorem undo_tracking (h : List Snapshot) (s : BoardState) (ctx : Ctx)
    (ht : Tracking h s) :
    Tracking h (boardReducer s .undo ctx) ∧
    (boardReducer s .undo ctx).historyIndex = max 0 (s.historyIndex - 1) := by
  obtain ⟨hh, h0, hlt, hget⟩ := ht
  by_cases hle : s.historyIndex ≤ 0
  · have hred : boardReducer s .undo ctx = s := by
      simp only [boardReducer, if_pos hle]
    rw [hred]
    exact ⟨⟨hh, h0, hlt, hget⟩, by omega⟩
  · have hbound : (s.historyIndex - 1).toNat < s.history.length := by
      rw [hh]
      omega
    have hsome := List.get?_eq_get hbound
    have hred : boardReducer s .undo ctx =
        { s with lists := (s.history.get ⟨(s.historyIndex - 1).toNat, hbound⟩).lists,
                 cards := (s.history.get ⟨(s.historyIndex - 1).toNat, hbound⟩).cards,
                 historyIndex := s.historyIndex - 1 } := by
      simp only [boardReducer, if_neg hle, hsome]
    rw [hred]
    refine ⟨⟨hh,
      by show (0 : Int) ≤ s.historyIndex - 1; omega,
      by show s.historyIndex - 1 < (h.length : Int); omega,
      ?_⟩,
      by show s.historyIndex - 1 = max 0 (s.historyIndex - 1); omega⟩
    show h.get? (s.historyIndex - 1).toNat = _
    rw [← hh, hsome]

theorem undoTimes_tracking (ctx : Ctx) :
    ∀ (k : Nat) (h : List Snapshot) (s : BoardState), Tracking h s →
      Tracking h (undoTimes ctx k s) ∧
      (undoTimes ctx k s).historyIndex = max 0 (s.historyIndex - k) := by
  intro k
  induction k with
  | zero =>
    intro h s ht
    refine ⟨ht, ?_⟩
    have h0 := ht.2.1
    show s.historyIndex = max 0 (s.historyIndex - ((0 : Nat) : Int))
    omega
  | succ n ih =>
    intro h s ht
    have hstep := undo_tracking h s ctx ht
    have hrec := ih h (boardReducer s .undo ctx) hstep.1
    refine ⟨hrec.1, ?_⟩
    rw [show undoTimes ctx (n + 1) s = undoTimes ctx n (boardReducer s .undo ctx) from rfl]
    rw [hrec.2, hstep.2]
    omega

theorem redo_tracking (h : List Snapshot) (s : BoardState) (ctx : Ctx)
    (ht : Tracking h s) :
    Tracking h (boardReducer s .redo ctx) ∧
    (boardReducer s .redo ctx).historyIndex =
      min ((h.length : Int) - 1) (s.historyIndex + 1) := by
  obtain ⟨hh, h0, hlt, hget⟩ := ht
  by_cases hge : s.historyIndex ≥ (s.history.length : Int) - 1
  · have hred : boardReducer s .redo ctx = s := by
      simp only [boardReducer, if_pos hge]
    rw [hred]
    rw [hh] at hge
    exact ⟨⟨hh, h0, hlt, hget⟩, by omega⟩
  · have hbound : (s.historyIndex + 1).toNat < s.history.length := by
      rw [hh]
      rw [hh] at hge
      omega
    have hsome := List.get?_eq_get hbound
    have hred : boardReducer s .redo ctx =
        { s with lists := (s.history.get ⟨(s.historyIndex + 1).toNat, hbound⟩).lists,
                 cards := (s.history.get ⟨(s.historyIndex + 1).toNat, hbound⟩).cards,
                 historyIndex := s.historyIndex + 1 } := by
      simp only [boardReducer, if_neg hge, hsome]
    rw [hred]
    rw [hh] at hge
    refine ⟨⟨hh,
      by show (0 : Int) ≤ s.historyIndex + 1; omega,
      by show s.historyIndex + 1 < (h.length : Int); omega,
      ?_⟩,
      by show s.historyIndex + 1 = min ((h.length : Int) - 1) (s.historyIndex + 1); omega⟩
    show h.get? (s.historyIndex + 1).toNat = _
    rw [← hh, hsome]

theorem redoTimes_tracking (ctx : Ctx) :
    ∀ (k : Nat) (h : List Snapshot) (s : BoardState), Tracking h s →
      Tracking h (redoTimes ctx k s) ∧
      (redoTimes ctx k s).historyIndex =
        min ((h.length : Int) - 1) (s.historyIndex + k) := by
  intro k
  induction k with
  | zero =>
    intro h s ht
    refine ⟨ht, ?_⟩
    have h0 := ht.2.2.1
    show s.historyIndex = min ((h.length : Int) - 1) (s.historyIndex + ((0 : Nat) : Int))
    omega
  | succ n ih =>
    intro h s ht
    have hstep := redo_tracking h s ctx ht
    have hrec := ih h (boardReducer s .redo ctx) hstep.1
    refine ⟨hrec.1, ?_⟩
    rw [show redoTimes ctx (n + 1) s = redoTimes ctx n (boardReducer s .redo ctx) from rfl]
    rw [hrec.2, hstep.2]
    omega

theorem runBracketed_anchor :
    ∀ (run : List (UAction × Ctx)) (s0 : BoardState), run ≠ [] →
      Tracking (runBracketed s0 run).history (runBracketed s0 run) ∧
      (runBracketed s0 run).historyIndex =
        (((runBracketed s0 run).history.length : Int)) - 1 := by
  intro run
  induction run with
  | nil => intro s0 hne; exact absurd rfl hne
  | cons pc rest ih =>
    intro s0 _
    cases rest with
    | nil =>
      have hrb : runBracketed s0 [pc] =
          boardReducer (boardReducer (boardReducer s0 .pushHistory pc.2) pc.1.toAction pc.2)
            .pushHistory pc.2 := rfl
      rw [hrb]
      exact push_tracking _ pc.2
    | cons qc rest2 =>
      have hrb : runBracketed s0 (pc :: qc :: rest2) =
          runBracketed (bracketed s0 pc.1 pc.2) (qc :: rest2) := rfl
      rw [hrb]
      exact ih (bracketed s0 pc.1 pc.2) (by simp)

theorem foldl_max_init_le (xs : List Int) : ∀ a : Int, a ≤ xs.foldl max a := by
  induction xs with
  | nil => intro a; exact le_refl a
  | cons x t ih =>
    intro a
    exact le_trans (le_max_left a x) (ih (max a x))

theorem mem_le_foldl_max (xs : List Int) : ∀ a x, x ∈ xs → x ≤ xs.foldl max a := by
  induction xs with
  | nil => intro a x hx; cases hx
  | cons y t ih =>
    intro a x hx
    rcases List.mem_cons.mp hx with h | h
    · subst h
      exact le_trans (le_max_right a x) (foldl_max_init_le t (max a x))
    · exact ih (max a y) x h

theorem mem_lt_maxOrderD_succ (xs : List Int) (x : Int) (hx : x ∈ xs) :
    x < maxOrderD xs + 1 := by
  cases xs with
  | nil => cases hx
  | cons o os =>
    rcases List.mem_cons.mp hx with h | h
    · subst h
      exact lt_of_le_of_lt (foldl_max_init_le os x) (lt_add_one _)
    · exact lt_of_le_of_lt (mem_le_foldl_max os o x h) (lt_add_one _)

theorem map_if_eq_self {α : Type _} (l : List α) (q : α → Prop) [DecidablePred q]
    (f : α → α) (h : ∀ a ∈ l, ¬ q a) :
    (l.map fun a => if q a then f a else a) = l := by
  induction l with
  | nil => rfl
  | cons a t ih =>
    simp only [List.map_cons]
    rw [if_neg (h a (List.mem_cons_self a t)), ih (fun b hb => h b (List.mem_cons_of_mem a hb))]

theorem insertAt_succ_cons {α : Type _} (n : Nat) (x a : α) (l : List α) :
    insertAt (n + 1) x (a :: l) = a :: insertAt n x l := rfl

theorem insertAt_zero {α : Type _} (x : α) (l : List α) :
    insertAt 0 x l = x :: l := rfl

theorem insertAt_perm {α : Type _} (n : Nat) (x : α) (l : List α) :
    (insertAt n x l).Perm (x :: l) := by
  have h1 : (l.take n ++ x :: l.drop n).Perm (x :: (l.take n ++ l.drop n)) :=
    List.perm_middle
  rwa [List.take_append_drop] at h1

theorem insertAt_length_eq_append {α : Type _} (x : α) (l : List α) :
    insertAt l.length x l = l ++ [x] := by
  unfold insertAt
  rw [List.take_length, List.drop_length]

theorem insertAt_nil {α : Type _} (n : Nat) (x : α) :
    insertAt n x ([] : List α) = [x] := by
  unfold insertAt
  simp

theorem pidxs_cons_pos {α : Type _} (p : α → Bool) (a : α) (t : List α) (hp : p a = true) :
    pidxs p (a :: t) = 0 :: (pidxs p t).map (· + 1) := by
  rw [show pidxs p (a :: t) =
      if p a = true then 0 :: (pidxs p t).map (· + 1) else (pidxs p t).map (· + 1) from rfl]
  rw [if_pos hp]

theorem pidxs_cons_neg {α : Type _} (p : α → Bool) (a : α) (t : List α) (hp : p a = false) :
    pidxs p (a :: t) = (pidxs p t).map (· + 1) := by
  rw [show pidxs p (a :: t) =
      if p a = true then 0 :: (pidxs p t).map (· + 1) else (pidxs p t).map (· + 1) from rfl]
  rw [if_neg (by simp [hp])]

theorem pidxs_enumFrom {α : Type _} (p : α → Bool) :
    ∀ (l : List α) (n : Nat),
      ((List.enumFrom n l).filter (fun q => p q.2)).map Prod.fst =
        (pidxs p l).map (· + n) := by
  intro l
  induction l with
  | nil => intro n; rfl
  | cons a t ih =>
    intro n
    have hstep : List.enumFrom n (a :: t) = (n, a) :: List.enumFrom (n + 1) t := rfl
    rw [hstep, List.filter_cons]
    cases hp : p a with
    | true =>
      rw [pidxs_cons_pos p a t hp]
      simp only [hp, if_true, List.map_cons, List.map_map, ih (n + 1)]
      refine List.cons_eq_cons.mpr ⟨by omega, ?_⟩
      apply List.map_congr_left
      intro y _
      show y + (n + 1) = y + 1 + n
      omega
    | false =>
      rw [pidxs_cons_neg p a t hp]
      simp only [hp, Bool.false_eq_true, if_false, List.map_map, ih (n + 1)]
      apply List.map_congr_left
      intro y _
      show y + (n + 1) = y + 1 + n
      omega

theorem targetIdxs_eq_pidxs (tgt : String) (l : List Card) :
    targetIdxs tgt l = pidxs (fun c => decide (c.listId = tgt)) l := by
  have h := pidxs_enumFrom (fun c : Card => decide (c.listId = tgt)) l 0
  unfold targetIdxs
  rw [show l.enum = List.enumFrom 0 l from rfl]
  rw [h]
  apply (List.map_congr_left (fun y _ => Nat.add_zero y)).trans
  exact List.map_id _

theorem pidxs_length {α : Type _} (p : α → Bool) :
    ∀ l : List α, (pidxs p l).length = (l.filter p).length := by
  intro l
  induction l with
  | nil => rfl
  | cons a t ih =>
    cases hp : p a with
    | true => rw [pidxs_cons_pos p a t hp, List.filter_cons]; simp [hp, ih]
    | false => rw [pidxs_cons_neg p a t hp, List.filter_cons]; simp [hp, ih]

theorem pidxs_nil_iff {α : Type _} (p : α → Bool) (l : List α) :
    pidxs p l = [] ↔ l.filter p = [] := by
  rw [← List.length_eq_zero, ← List.length_eq_zero (l := l.filter p), pidxs_length]

theorem getLastD_default_irrel {α : Type _} :
    ∀ (r : List α) (d₁ d₂ : α), r ≠ [] → r.getLastD d₁ = r.getLastD d₂ := by
  intro r
  cases r with
  | nil => intro d₁ d₂ h; exact absurd rfl h
  | cons b rest =>
    intro d₁ d₂ _
    rw [List.getLastD_cons d₁ b rest, List.getLastD_cons d₂ b rest]

theorem getLastD_map_succ_general :
    ∀ (r : List Nat) (d : Nat), (r.map (· + 1)).getLastD (d + 1) = r.getLastD d + 1 := by
  intro r
  induction r with
  | nil => intro d; rfl
  | cons b rest ih =>
    intro d
    rw [List.map_cons, List.getLastD_cons (d + 1) (b + 1) (rest.map (· + 1)),
      List.getLastD_cons d b rest, ih b]

theorem getLastD_map_succ (r : List Nat) (hr : r ≠ []) :
    (r.map (· + 1)).getLastD 0 = r.getLastD 0 + 1 := by
  have hmap : r.map (· + 1) ≠ [] := by
    cases r with
    | nil => exact absurd rfl hr
    | cons b rest => simp
  rw [getLastD_default_irrel (r.map (· + 1)) 0 (0 + 1) hmap, getLastD_map_succ_general r 0]

theorem getD_map_succ :
    ∀ (r : List Nat) (j : Nat), j < r.length → (r.map (· + 1)).getD j 0 = r.getD j 0 + 1 := by
  intro r
  induction r with
  | nil => intro j hj; exact absurd hj (by simp)
  | cons b rest ih =>
    intro j hj
    cases j with
    | zero => rfl
    | succ k =>
      have hk : k < rest.length := by simpa using hj
      show (rest.map (· + 1)).getD k 0 = rest.getD k 0 + 1
      exact ih k hk

theorem filter_insertAt_getD {α : Type _} (p : α → Bool) (x : α) (hx : p x = true) :
    ∀ (l : List α) (i : Nat), i < (pidxs p l).length →
      (insertAt ((pidxs p l).getD i 0) x l).filter p = insertAt i x (l.filter p) := by
  intro l
  induction l with
  | nil => intro i hi; exact absurd hi (by simp [pidxs])
  | cons a t ih =>
    intro i hi
    cases hp : p a with
    | true =>
      rw [pidxs_cons_pos p a t hp] at hi ⊢
      cases i with
      | zero =>
        rw [show ((0 :: (pidxs p t).map (· + 1)).getD 0 0) = 0 from rfl, insertAt_zero,
          insertAt_zero, List.filter_cons, if_pos hx]
      | succ j =>
        have hj : j < (pidxs p t).length := by simpa using hi
        rw [show ((0 :: (pidxs p t).map (· + 1)).getD (j + 1) 0) =
            ((pidxs p t).map (· + 1)).getD j 0 from rfl]
        rw [getD_map_succ (pidxs p t) j hj]
        rw [insertAt_succ_cons]
        rw [List.filter_cons, List.filter_cons, if_pos hp, if_pos hp]
        rw [ih j hj, insertAt_succ_cons]
    | false =>
      rw [pidxs_cons_neg p a t hp] at hi ⊢
      have hj : i < (pidxs p t).length := by simpa using hi
      rw [getD_map_succ (pidxs p t) i hj]
      rw [insertAt_succ_cons]
      rw [List.filter_cons, List.filter_cons, if_neg (by simp [hp]), if_neg (by simp [hp])]
      exact ih i hj

theorem filter_insertAt_last {α : Type _} (p : α → Bool) (x : α) (hx : p x = true) :
    ∀ (l : List α), pidxs p l ≠ [] →
      (insertAt ((pidxs p l).getLastD 0 + 1) x l).filter p = l.filter p ++ [x] := by
  intro l
  induction l with
  | nil => intro h; exact absurd rfl h
  | cons a t ih =>
    intro hne
    cases hp : p a with
    | true =>
      rw [pidxs_cons_pos p a t hp]
      by_cases hr : pidxs p t = []
      · rw [hr]
        rw [show (((0 : Nat) :: ([] : List Nat).map (· + 1)).getLastD 0 + 1) = 1 from rfl]
        rw [insertAt_succ_cons, insertAt_zero]
        have ht : t.filter p = [] := (pidxs_nil_iff p t).mp hr
        rw [List.filter_cons, List.filter_cons, List.filter_cons, if_pos hp, if_pos hp,
          if_pos hx, ht]
        rfl
      · rw [List.getLastD_cons 0 0 ((pidxs p t).map (· + 1)), getLastD_map_succ _ hr]
        rw [show (pidxs p t).getLastD 0 + 1 + 1 = ((pidxs p t).getLastD 0 + 1) + 1 from rfl]
        rw [insertAt_succ_cons]
        rw [List.filter_cons, List.filter_cons, if_pos hp, if_pos hp]
        rw [ih hr]
        rfl
    | false =>
      rw [pidxs_cons_neg p a t hp]
      have hr : pidxs p t ≠ [] := by
        intro hcon
        apply hne
        rw [pidxs_cons_neg p a t hp, hcon]
        rfl
      rw [getLastD_map_succ _ hr]
      rw [insertAt_succ_cons]
      rw [List.filter_cons, List.filter_cons, if_neg (by simp [hp]), if_neg (by simp [hp])]
      exact ih hr

theorem perm_cons_filter_of_find? {α : Type _} (idf : α → String) (x : String) :
    ∀ (l : List α) (c : α), (l.map idf).Nodup →
      l.find? (fun a => idf a = x) = some c →
      l.Perm (c :: l.filter (fun a => ¬(idf a = x))) := by
  intro l
  induction l with
  | nil => intro c _ hfind; exact absurd hfind (by simp)
  | cons a t ih =>
    intro c hnodup hfind
    rw [List.map_cons, List.nodup_cons] at hnodup
    by_cases ha : idf a = x
    · have hc : a = c := by
        have hpos : (a :: t).find? (fun b => decide (idf b = x)) = some a :=
          List.find?_cons_of_pos _ (by simpa using ha)
        rw [hpos] at hfind
        exact Option.some.inj hfind
      subst hc
      have ht : t.filter (fun b => ¬(idf b = x)) = t := by
        rw [List.filter_eq_self]
        intro b hb
        simp only [decide_not, Bool.not_eq_true', decide_eq_false_iff_not]
        intro hbx
        exact hnodup.1 (show idf a ∈ t.map idf from by
          rw [show idf a = idf b from (hbx.trans ha.symm).symm]
          exact List.mem_map_of_mem idf hb)
      rw [List.filter_cons]
      have hcond : (decide ¬(idf a = x)) = false := by simp [ha]
      rw [hcond, if_neg (show ¬(false = true) by simp), ht]
    · have hneg : (a :: t).find? (fun b => decide (idf b = x)) =
          t.find? (fun b => decide (idf b = x)) :=
        List.find?_cons_of_neg _ (by simpa using ha)
      rw [hneg] at hfind
      have hperm := ih c hnodup.2 hfind
      rw [List.filter_cons]
      have hcond : (decide ¬(idf a = x)) = true := by simp [ha]
      rw [hcond, if_pos (show (true = true) from rfl)]
      exact (hperm.cons a).trans (List.Perm.swap c a _)

theorem removeFromQueue_run_fields (qids : List String) (ctx : Ctx) :
    ∀ s : BoardState,
      ((qids.foldl (fun st qid => boardReducer st (.removeFromQueue qid) ctx) s).lists = s.lists ∧
       (qids.foldl (fun st qid => boardReducer st (.removeFromQueue qid) ctx) s).cards = s.cards ∧
       (qids.foldl (fun st qid => boardReducer st (.removeFromQueue qid) ctx) s).conflicts = s.conflicts ∧
       (qids.foldl (fun st qid => boardReducer st (.removeFromQueue qid) ctx) s).lastSyncedAt = s.lastSyncedAt) := by
  induction qids with
  | nil => intro s; exact ⟨rfl, rfl, rfl, rfl⟩
  | cons q qs ih =>
    intro s
    simpa using ih (boardReducer s (.removeFromQueue q) ctx)

theorem mergeConflict_run (cs : List Conflict) (ctx : Ctx) :
    ∀ s : BoardState,
      (cs.foldl (fun st c => boardReducer st (.mergeConflict c) ctx) s) =
        { s with conflicts := s.conflicts ++ cs } := by
  induction cs with
  | nil => intro s; simp
  | cons c cs ih =>
    intro s
    rw [List.foldl_cons, ih]
    show ({ boardReducer s (.mergeConflict c) ctx with
            conflicts := (boardReducer s (.mergeConflict c) ctx).conflicts ++ cs } : BoardState) = _
    simp [boardReducer]

/-! Claim theorems. -/

/-- C1: for every pair of entities present both locally and remotely,
checkForConflicts returns a conflict record iff the remote version strictly
exceeds the local version and the two entities differ in content once the
version and lastModifiedAt fields are excluded; identical content, a stale
remote, or a missing side never produces a conflict, and a returned record
carries the two entities and the local id. -/
theorem conflict_detection_characterization (li si : Card) (ll sl : BList)
    (freshId now : String) :
    ((checkForConflictsCard (some li) (some si) freshId now).isSome ↔
      (li.version < si.version ∧ ¬(scrubCard li = scrubCard si))) ∧
    ((checkForConflictsList (some ll) (some sl) freshId now).isSome ↔
      (ll.version < sl.version ∧ ¬(scrubList ll = scrubList sl))) ∧
    (scrubCard li = scrubCard si →
      checkForConflictsCard (some li) (some si) freshId now = none) ∧
    (si.version ≤ li.version →
      checkForConflictsCard (some li) (some si) freshId now = none) ∧
    checkForConflictsCard (some li) none freshId now = none ∧
    checkForConflictsCard none (some si) freshId now = none ∧
    (∀ cf, checkForConflictsCard (some li) (some si) freshId now = some cf →
      cf.itemId = li.id ∧ cf.localVersion = .card li ∧ cf.serverVersion = .card si) := by
  refine ⟨?_, ?_, ?_, ?_, rfl, rfl, ?_⟩
  · unfold checkForConflictsCard
    by_cases h1 : li.version < si.version
    · by_cases h2 : scrubCard li = scrubCard si
      · simp [h1, h2]
      · simp [h1, h2]
    · simp [h1]
  · unfold checkForConflictsList
    by_cases h1 : ll.version < sl.version
    · by_cases h2 : scrubList ll = scrubList sl
      · simp [h1, h2]
      · simp [h1, h2]
    · simp [h1]
  · intro h2
    unfold checkForConflictsCard
    simp [h2]
  · intro h1
    unfold checkForConflictsCard
    simp [Nat.not_lt.mpr h1]
  · intro cf hcf
    unfold checkForConflictsCard at hcf
    by_cases h1 : li.version < si.version
    · by_cases h2 : scrubCard li = scrubCard si
      · simp [h1, h2] at hcf
      · simp [h1, h2] at hcf
        exact ⟨by rw [← hcf], by rw [← hcf], by rw [← hcf]⟩
    · simp [h1] at hcf

/-- C1 witness: the spec's own scenario (local v3, remote v5, titles differ)
raises a conflict; the stale direction raises none. -/
theorem conflict_detection_characterization_witness :
    (checkForConflictsCard (some cardA) (some serverCardA) "c" "T").isSome ∧
    checkForConflictsCard (some serverCardA) (some cardA) "c" "T" = none :=
  ⟨((conflict_detection_characterization cardA serverCardA backlogList remoteList "c" "T").1).mpr
      (by decide),
   ((conflict_detection_characterization serverCardA cardA backlogList remoteList "c" "T").2.2.2.1)
      (by decide)⟩

/-- C7 counterexample: dispatching MERGE_CONFLICT for itemId a while an open
conflict for a already exists yields two open conflicts with that itemId, so
the conflict set does not keep at most one open conflict per itemId. -/
theorem duplicate_conflict_cex :
    ((boardReducer conflictState
        (.mergeConflict { sampleConflict with id := "c2" }) sampleCtx).conflicts.countP
      (fun c => c.itemId = "a")) = 2 := by decide

/-- C7 amended: MERGE_CONFLICT appends the detected conflict unconditionally
(no deduplication by itemId), leaving lists, cards and the sync queue
untouched; a second open conflict for the same itemId can therefore coexist
with the first. -/
theorem merge_conflict_appends (s : BoardState) (c : Conflict) (ctx : Ctx) :
    (boardReducer s (.mergeConflict c) ctx).conflicts = s.conflicts ++ [c] ∧
    (boardReducer s (.mergeConflict c) ctx).lists = s.lists ∧
    (boardReducer s (.mergeConflict c) ctx).cards = s.cards ∧
    (boardReducer s (.mergeConflict c) ctx).syncQueue = s.syncQueue :=
  ⟨rfl, rfl, rfl, rfl⟩

/-- C3 counterexample: a sync cycle whose detection pass finds zero conflicts
(local list l1, pulled snapshot containing only the unrelated list l2) does
not accept the remote snapshot as the new local lists — the engine never
bulk-replaces local state from processQueue. -/
theorem sync_cycle_no_bulk_replace_cex :
    detectConflicts { initialState with lists := [backlogList] }
      ⟨[remoteList], []⟩ (fun _ => "c") "T" = [] ∧
    ¬((processQueueModel { initialState with lists := [backlogList] } []
        ⟨[remoteList], []⟩ (fun _ => "c") sampleCtx).lists = [remoteList]) := by
  refine ⟨by decide, by decide⟩

/-- C3 amended: every completed reconciliation records lastSyncedAt but never
bulk-replaces local state with the pulled snapshot: local lists and cards are
left exactly as they were whether the cycle found zero conflicts or some, and
each detected conflict is appended to the conflict set. -/
theorem sync_cycle_reconciliation (s : BoardState) (results : List SyncResultEntry)
    (server : ServerSnapshot) (ids : Nat → String) (ctx : Ctx) :
    (processQueueModel s results server ids ctx).lists = s.lists ∧
    (processQueueModel s results server ids ctx).cards = s.cards ∧
    (processQueueModel s results server ids ctx).lastSyncedAt = some ctx.nowIso ∧
    (processQueueModel s results server ids ctx).conflicts =
      s.conflicts ++ detectConflicts s server ids ctx.nowIso := by
  unfold processQueueModel
  set qids := (results.filter (fun r => r.success)).map (fun r => r.changeId) with hq
  set s1 := qids.foldl (fun st qid => boardReducer st (.removeFromQueue qid) ctx) s with hs1
  have h1 := removeFromQueue_run_fields qids ctx s
  rw [← hs1] at h1
  set s2 := boardReducer s1 .markSynced ctx with hs2
  have h2l : s2.lists = s1.lists := rfl
  have h2c : s2.cards = s1.cards := rfl
  have h2cf : s2.conflicts = s1.conflicts := rfl
  have h2t : s2.lastSyncedAt = some ctx.nowIso := rfl
  rw [mergeConflict_run]
  exact ⟨h2l.trans h1.1, h2c.trans h1.2.1, h2t,
    by rw [show ({ s2 with conflicts := s2.conflicts ++ detectConflicts s server ids ctx.nowIso } : BoardState).conflicts
            = s2.conflicts ++ detectConflicts s server ids ctx.nowIso from rfl, h2cf, h1.2.2.1]⟩

/-- C2: resolving an open conflict with "local" leaves the local entity's
content unchanged and appends exactly one forced-override queue entry for it
whose version equals the server version captured at detection plus 1 (hence
strictly exceeding the remote version at detection), while resolving with
"server" replaces the local entity wholesale with the serverVersion captured
at detection and appends nothing; both resolutions remove the conflict record. -/
theorem resolve_conflict_contract (s : BoardState) (ctx : Ctx) (cf : Conflict)
    (hfind : s.conflicts.find? (fun c => c.id = cf.id) = some cf) :
    (∀ sv cur, cf.ctype = "card" → cf.serverVersion = Entity.card sv →
      s.cards.find? (fun c => c.id = cf.itemId) = some cur →
      (boardReducer s (.resolveConflict cf.id "local") ctx).cards = s.cards ∧
      (boardReducer s (.resolveConflict cf.id "local") ctx).lists = s.lists ∧
      (boardReducer s (.resolveConflict cf.id "local") ctx).syncQueue =
        s.syncQueue ++ [⟨"UPDATE_CARD",
          .updateCardFull { cur with version := sv.version + 1 }, ctx.nowMs, ctx.uuid1⟩] ∧
      sv.version < sv.version + 1 ∧
      (boardReducer s (.resolveConflict cf.id "local") ctx).conflicts =
        s.conflicts.filter (fun c => ¬(c.id = cf.id))) ∧
    (∀ sv cur, cf.ctype = "list" → cf.serverVersion = Entity.list sv →
      s.lists.find? (fun l => l.id = cf.itemId) = some cur →
      (boardReducer s (.resolveConflict cf.id "local") ctx).cards = s.cards ∧
      (boardReducer s (.resolveConflict cf.id "local") ctx).lists = s.lists ∧
      (boardReducer s (.resolveConflict cf.id "local") ctx).syncQueue =
        s.syncQueue ++ [⟨"UPDATE_LIST",
          .updateListFull { cur with version := sv.version + 1 }, ctx.nowMs, ctx.uuid1⟩] ∧
      sv.version < sv.version + 1 ∧
      (boardReducer s (.resolveConflict cf.id "local") ctx).conflicts =
        s.conflicts.filter (fun c => ¬(c.id = cf.id))) ∧
    (∀ sv, cf.ctype = "card" → cf.serverVersion = Entity.card sv →
      (boardReducer s (.resolveConflict cf.id "server") ctx).syncQueue = s.syncQueue ∧
      (boardReducer s (.resolveConflict cf.id "server") ctx).cards =
        s.cards.map (fun c => if c.id = cf.itemId then sv else c) ∧
      (boardReducer s (.resolveConflict cf.id "server") ctx).lists = s.lists ∧
      (boardReducer s (.resolveConflict cf.id "server") ctx).conflicts =
        s.conflicts.filter (fun c => ¬(c.id = cf.id))) ∧
    (∀ sv, cf.ctype = "list" → cf.serverVersion = Entity.list sv →
      (boardReducer s (.resolveConflict cf.id "server") ctx).syncQueue = s.syncQueue ∧
      (boardReducer s (.resolveConflict cf.id "server") ctx).lists =
        s.lists.map (fun l => if l.id = cf.itemId then sv else l) ∧
      (boardReducer s (.resolveConflict cf.id "server") ctx).cards = s.cards ∧
      (boardReducer s (.resolveConflict cf.id "server") ctx).conflicts =
        s.conflicts.filter (fun c => ¬(c.id = cf.id))) := by
  refine ⟨?_, ?_, ?_, ?_⟩
  · intro sv cur hct hsv hcur
    simp only [boardReducer, hfind, hct, hcur, hsv]
    refine ⟨rfl, rfl, by simp [Entity.version], by omega, rfl⟩
  · intro sv cur hct hsv hcur
    simp only [boardReducer, hfind, hct, hcur, hsv]
    refine ⟨rfl, rfl, by simp [Entity.version], by omega, rfl⟩
  · intro sv hct hsv
    simp only [boardReducer, hfind, hct, hsv]
    refine ⟨rfl, rfl, rfl, rfl⟩
  · intro sv hct hsv
    simp only [boardReducer, hfind, hct, hsv]
    refine ⟨rfl, rfl, rfl, rfl⟩

/-- C2 witness: the open conflict on cardA (server at version 5): keep-local
appends the single override entry at version 6 without touching the card;
use-server swaps the card for the server copy and enqueues nothing. -/
theorem resolve_conflict_contract_witness :
    ((boardReducer conflictState (.resolveConflict "c1" "local") sampleCtx).cards =
        conflictState.cards ∧
      (boardReducer conflictState (.resolveConflict "c1" "local") sampleCtx).lists =
        conflictState.lists ∧
      (boardReducer conflictState (.resolveConflict "c1" "local") sampleCtx).syncQueue =
        conflictState.syncQueue ++ [⟨"UPDATE_CARD",
          .updateCardFull { cardA with version := serverCardA.version + 1 },
          sampleCtx.nowMs, sampleCtx.uuid1⟩] ∧
      serverCardA.version < serverCardA.version + 1 ∧
      (boardReducer conflictState (.resolveConflict "c1" "local") sampleCtx).conflicts =
        conflictState.conflicts.filter (fun c => ¬(c.id = "c1"))) ∧
    ((boardReducer conflictState (.resolveConflict "c1" "server") sampleCtx).syncQueue =
        conflictState.syncQueue ∧
      (boardReducer conflictState (.resolveConflict "c1" "server") sampleCtx).cards =
        conflictState.cards.map (fun c => if c.id = "a" then serverCardA else c) ∧
      (boardReducer conflictState (.resolveConflict "c1" "server") sampleCtx).lists =
        conflictState.lists ∧
      (boardReducer conflictState (.resolveConflict "c1" "server") sampleCtx).conflicts =
        conflictState.conflicts.filter (fun c => ¬(c.id = "c1"))) :=
  ⟨(resolve_conflict_contract conflictState sampleCtx sampleConflict (by decide)).1
      serverCardA cardA (by decide) (by decide) (by decide),
   (resolve_conflict_contract conflictState sampleCtx sampleConflict (by decide)).2.2.1
      serverCardA (by decide) (by decide)⟩

/-- C10: resolving an open conflict with "local" when the conflicted entity no
longer exists in local state removes the conflict record but appends nothing
to the sync queue, so no forced override is pushed for the vanished entity. -/
theorem resolve_vanished_entity (s : BoardState) (ctx : Ctx) (cf : Conflict)
    (hfind : s.conflicts.find? (fun c => c.id = cf.id) = some cf)
    (hgone : (cf.ctype = "card" ∧ s.cards.find? (fun c => c.id = cf.itemId) = none) ∨
      (cf.ctype = "list" ∧ s.lists.find? (fun l => l.id = cf.itemId) = none)) :
    (boardReducer s (.resolveConflict cf.id "local") ctx).syncQueue = s.syncQueue ∧
    (boardReducer s (.resolveConflict cf.id "local") ctx).cards = s.cards ∧
    (boardReducer s (.resolveConflict cf.id "local") ctx).lists = s.lists ∧
    (boardReducer s (.resolveConflict cf.id "local") ctx).conflicts =
      s.conflicts.filter (fun c => ¬(c.id = cf.id)) := by
  rcases hgone with ⟨hct, hnone⟩ | ⟨hct, hnone⟩
  · simp only [boardReducer, hfind, hct, hnone]
    exact ⟨rfl, rfl, rfl, rfl⟩
  · simp only [boardReducer, hfind, hct, hnone]
    exact ⟨rfl, rfl, rfl, rfl⟩

/-- C4 counterexample: DELETE_CARD on an id with no matching card leaves the
cards untouched but still appends a sync-queue entry, so the reducer does not
return the state unchanged. -/
theorem nonexistent_id_queue_cex :
    (boardReducer initialState (.deleteCard "ghost") sampleCtx).cards = initialState.cards ∧
    (boardReducer initialState (.deleteCard "ghost") sampleCtx).syncQueue.length = 1 ∧
    ¬(boardReducer initialState (.deleteCard "ghost") sampleCtx = initialState) := by
  refine ⟨rfl, rfl, by decide⟩

/-- C4 amended: no dangling-id action throws (all cases below are total), and
MOVE_CARD or REORDER_CARD on a nonexistent card return the state unchanged
including the sync queue; but RENAME_LIST, UPDATE_CARD and DELETE_CARD on a
nonexistent id, while leaving lists and cards unchanged, still append one
sync-queue entry (RENAME_LIST records version 1 for the missing list). -/
theorem nonexistent_id_noop_behavior
    (s : BoardState) (ctx : Ctx) (cid lid src tgt title : String) (ti : Option Int)
    (n : Nat) (u : CardUpdates) :
    (s.cards.find? (fun c => c.id = cid) = none →
      boardReducer s (.moveCard cid src tgt ti) ctx = s) ∧
    ((∀ c ∈ s.cards, ¬(c.listId = lid ∧ c.id = cid)) →
      boardReducer s (.reorderCard cid lid n) ctx = s) ∧
    ((∀ l ∈ s.lists, ¬(l.id = lid)) →
      (boardReducer s (.renameList lid title) ctx).lists = s.lists ∧
      (boardReducer s (.renameList lid title) ctx).cards = s.cards ∧
      (boardReducer s (.renameList lid title) ctx).syncQueue =
        s.syncQueue ++ [⟨"UPDATE_LIST", .updateListFields lid title 1, ctx.nowMs, ctx.uuid1⟩]) ∧
    ((∀ c ∈ s.cards, ¬(c.id = cid)) →
      (boardReducer s (.updateCard cid u) ctx).cards = s.cards ∧
      (boardReducer s (.updateCard cid u) ctx).lists = s.lists ∧
      (boardReducer s (.updateCard cid u) ctx).syncQueue =
        s.syncQueue ++ [⟨"UPDATE_CARD", .updateCardFields cid u, ctx.nowMs, ctx.uuid1⟩]) ∧
    ((∀ c ∈ s.cards, ¬(c.id = cid)) →
      (boardReducer s (.deleteCard cid) ctx).cards = s.cards ∧
      (boardReducer s (.deleteCard cid) ctx).syncQueue =
        s.syncQueue ++ [⟨"DELETE_CARD", .deleteCardData cid, ctx.nowMs, ctx.uuid1⟩]) := by
  refine ⟨?_, ?_, ?_, ?_, ?_⟩
  · intro h
    simp only [boardReducer, h]
  · intro h
    have hnone : ((s.cards.filter (fun c => c.listId = lid)).mergeSort
        (fun a b => a.order ≤ b.order)).find? (fun c => c.id = cid) = none := by
      rw [List.find?_eq_none]
      intro x hx
      have hx2 := List.mem_mergeSort.mp hx
      have hx3 := List.mem_filter.mp hx2
      have := h x hx3.1
      simp only [decide_eq_true_eq] at hx3 ⊢
      intro hid
      exact this ⟨hx3.2, hid⟩
    simp only [boardReducer, hnone]
  · intro h
    have hmap : (s.lists.map (fun l =>
        if l.id = lid then touchList ctx { l with title := title } else l)) = s.lists :=
      map_if_eq_self s.lists (fun l => l.id = lid) _ h
    have hnone : s.lists.find? (fun l => l.id = lid) = none := by
      rw [List.find?_eq_none]
      intro x hx
      simpa using h x hx
    refine ⟨?_, rfl, ?_⟩
    · simp only [boardReducer]
      exact hmap
    · simp only [boardReducer, hnone]
      rfl
  · intro h
    have hmap : (s.cards.map (fun c =>
        if c.id = cid then touchCard ctx (applyUpdates c u) else c)) = s.cards :=
      map_if_eq_self s.cards (fun c => c.id = cid) _ h
    refine ⟨?_, rfl, rfl⟩
    simp only [boardReducer]
    exact hmap
  · intro h
    have hfil : (s.cards.filter (fun c => ¬(c.id = cid))) = s.cards := by
      rw [List.filter_eq_self]
      intro a ha
      simpa using h a ha
    refine ⟨?_, rfl⟩
    simp only [boardReducer]
    exact hfil

/-- C4 witness: on the empty board, moving the missing card ghost is a full
no-op and deleting it appends exactly the delete entry. -/
theorem nonexistent_id_noop_behavior_witness :
    (boardReducer initialState (.moveCard "ghost" "L" "M" none) sampleCtx = initialState) ∧
    ((boardReducer initialState (.deleteCard "ghost") sampleCtx).cards = initialState.cards ∧
      (boardReducer initialState (.deleteCard "ghost") sampleCtx).syncQueue =
        initialState.syncQueue ++
          [⟨"DELETE_CARD", .deleteCardData "ghost", sampleCtx.nowMs, sampleCtx.uuid1⟩]) :=
  ⟨(nonexistent_id_noop_behavior initialState sampleCtx "ghost" "L" "L" "M" "t" none 0
      ⟨none, none, none⟩).1 (by decide),
   (nonexistent_id_noop_behavior initialState sampleCtx "ghost" "L" "L" "M" "t" none 0
      ⟨none, none, none⟩).2.2.2.2 (by decide)⟩

/-- MOVE_CARD's insert slot when the destination holds no other card. -/
theorem movePosition_nil (rem : List Card) (tgt : String) (ti : Option Int)
    (h : targetIdxs tgt rem = []) : movePosition rem tgt ti = rem.length := by
  unfold movePosition
  rw [h]

/-- MOVE_CARD's insert slot with a nonempty destination, written over the
index list. -/
theorem movePosition_cons (rem : List Card) (tgt : String) (ti : Option Int)
    (h : targetIdxs tgt rem ≠ []) :
    movePosition rem tgt ti =
      if (max 0 (min (ti.getD ((targetIdxs tgt rem).length : Int))
            ((targetIdxs tgt rem).length : Int))) = ((targetIdxs tgt rem).length : Int)
      then (targetIdxs tgt rem).getLastD 0 + 1
      else (targetIdxs tgt rem).getD
        (max 0 (min (ti.getD ((targetIdxs tgt rem).length : Int))
          ((targetIdxs tgt rem).length : Int))).toNat 0 := by
  unfold movePosition
  cases hT : targetIdxs tgt rem with
  | nil => exact absurd hT h
  | cons a r => rfl

/-- C5 counterexample: moving card x into list L (cards A at order 5 and B at
order 7) with requested index 1 — already inside [0, 2] — sets x's order field
to the raw index 1 and touches no sibling orders, so ordered by the order
field x sits at index 0, not the clamped index 1; with a null index x gets
order 0 and again sorts first instead of landing at the end (index 2). -/
theorem move_card_sorted_position_cex :
    (jsFindIndex (fun c => c.id = "x")
      (sortedByOrder ((boardReducer moveSampleState
        (.moveCard "x" "M" "L" (some 1)) sampleCtx).cards.filter
          (fun c => c.listId = "L")))) = 0 ∧
    ¬((0 : Int) = max 0 (min 1 2)) ∧
    (jsFindIndex (fun c => c.id = "x")
      (sortedByOrder ((boardReducer moveSampleState
        (.moveCard "x" "M" "L" none) sampleCtx).cards.filter
          (fun c => c.listId = "L")))) = 0 ∧
    ¬((0 : Int) = 2) := by
  refine ⟨by decide, by decide, by decide, by decide⟩

/-- C5 amended: MOVE_CARD on an existing card keeps the board's card ids a
permutation (no card duplicated or lost), and inserts the moved card at the
requested index clamped into [0, destinationSiblingCount] among the
destination list's cards in storage (array) order, a null/omitted index
meaning the end; but the moved card's order field is set to the raw requested
index (0 when null) and sibling order fields are not rewritten, so the sorted-
by-order rendering need not show it at the clamped index. -/
theorem move_card_placement (s : BoardState) (cardId src tgt : String)
    (ti : Option Int) (ctx : Ctx) (card : Card)
    (hfind : s.cards.find? (fun c => c.id = cardId) = some card)
    (hnodup : (s.cards.map (fun c => c.id)).Nodup) :
    ((boardReducer s (.moveCard cardId src tgt ti) ctx).cards.map (fun c => c.id)).Perm
      (s.cards.map (fun c => c.id)) ∧
    (boardReducer s (.moveCard cardId src tgt ti) ctx).cards.filter
        (fun c => c.listId = tgt) =
      insertAt
        (moveClamped ti (((s.cards.filter (fun c => ¬(c.id = cardId))).filter
          (fun c => c.listId = tgt)).length))
        (touchCard ctx { card with listId := tgt, order := ti.getD 0 })
        ((s.cards.filter (fun c => ¬(c.id = cardId))).filter (fun c => c.listId = tgt)) ∧
    (touchCard ctx { card with listId := tgt, order := ti.getD 0 }).order = ti.getD 0 ∧
    (touchCard ctx { card with listId := tgt, order := ti.getD 0 }).version =
      card.version + 1 := by
  have hcards : (boardReducer s (.moveCard cardId src tgt ti) ctx).cards =
      insertAt (movePosition (s.cards.filter (fun c => ¬(c.id = cardId))) tgt ti)
        (touchCard ctx { card with listId := tgt, order := ti.getD 0 })
        (s.cards.filter (fun c => ¬(c.id = cardId))) := by
    simp only [boardReducer, hfind]
  refine ⟨?_, ?_, rfl, rfl⟩
  · have h2 : s.cards.Perm ((card :: s.cards.filter (fun c => ¬(c.id = cardId)))) :=
      perm_cons_filter_of_find? (fun c => c.id) cardId s.cards card hnodup hfind
    have h1 := (insertAt_perm
      (movePosition (s.cards.filter (fun c => ¬(c.id = cardId))) tgt ti)
      (touchCard ctx { card with listId := tgt, order := ti.getD 0 })
      (s.cards.filter (fun c => ¬(c.id = cardId)))).map (fun c => c.id)
    rw [hcards]
    refine h1.trans ?_
    have hid : ((touchCard ctx { card with listId := tgt, order := ti.getD 0 }
        :: s.cards.filter (fun c => ¬(c.id = cardId))).map (fun c => c.id)) =
        ((card :: s.cards.filter (fun c => ¬(c.id = cardId))).map (fun c => c.id)) := rfl
    rw [hid]
    exact (h2.map (fun c => c.id)).symm
  · rw [hcards]
    have hpm : (fun c => decide (c.listId = tgt))
        (touchCard ctx { card with listId := tgt, order := ti.getD 0 }) = true := by
      simp [touchCard]
    have hTP : targetIdxs tgt (s.cards.filter (fun c => ¬(c.id = cardId))) =
        pidxs (fun c => decide (c.listId = tgt))
          (s.cards.filter (fun c => ¬(c.id = cardId))) :=
      targetIdxs_eq_pidxs tgt _
    by_cases hnilT : targetIdxs tgt (s.cards.filter (fun c => ¬(c.id = cardId))) = []
    · have hfil : ((s.cards.filter (fun c => ¬(c.id = cardId))).filter
          (fun c => c.listId = tgt)) = [] := by
        have h0 : pidxs (fun c => decide (c.listId = tgt))
            (s.cards.filter (fun c => ¬(c.id = cardId))) = [] := by
          rw [← hTP]
          exact hnilT
        exact (pidxs_nil_iff _ _).mp h0
      rw [movePosition_nil _ _ _ hnilT, insertAt_length_eq_append, List.filter_append,
        hfil]
      rw [List.filter_cons]
      rw [if_pos hpm]
      rw [insertAt_nil]
      rfl
    · have hlen : (targetIdxs tgt (s.cards.filter (fun c => ¬(c.id = cardId)))).length =
          ((s.cards.filter (fun c => ¬(c.id = cardId))).filter
            (fun c => c.listId = tgt)).length := by
        rw [hTP, pidxs_length]
      rw [movePosition_cons _ _ _ hnilT]
      by_cases hbl : (max 0 (min (ti.getD
            ((targetIdxs tgt (s.cards.filter (fun c => ¬(c.id = cardId)))).length : Int))
            ((targetIdxs tgt (s.cards.filter (fun c => ¬(c.id = cardId)))).length : Int))) =
          ((targetIdxs tgt (s.cards.filter (fun c => ¬(c.id = cardId)))).length : Int)
      · rw [if_pos hbl]
        have hne : pidxs (fun c => decide (c.listId = tgt))
            (s.cards.filter (fun c => ¬(c.id = cardId))) ≠ [] := by
          rw [← hTP]; exact hnilT
        have hlast := filter_insertAt_last (fun c => decide (c.listId = tgt))
          (touchCard ctx { card with listId := tgt, order := ti.getD 0 }) hpm
          (s.cards.filter (fun c => ¬(c.id = cardId))) hne
        rw [hTP, hlast]
        have hclamp : moveClamped ti (((s.cards.filter (fun c => ¬(c.id = cardId))).filter
            (fun c => c.listId = tgt)).length) =
            (((s.cards.filter (fun c => ¬(c.id = cardId))).filter
              (fun c => c.listId = tgt)).length) := by
          unfold moveClamped
          rw [← hlen]
          omega
        rw [hclamp, insertAt_length_eq_append]
      · rw [if_neg hbl]
        have hne : pidxs (fun c => decide (c.listId = tgt))
            (s.cards.filter (fun c => ¬(c.id = cardId))) ≠ [] := by
          rw [← hTP]; exact hnilT
        have hb0 : (0 : Int) ≤ max 0 (min (ti.getD
            ((targetIdxs tgt (s.cards.filter (fun c => ¬(c.id = cardId)))).length : Int))
            ((targetIdxs tgt (s.cards.filter (fun c => ¬(c.id = cardId)))).length : Int)) :=
          le_max_left 0 _
        have hblt : (max 0 (min (ti.getD
            ((targetIdxs tgt (s.cards.filter (fun c => ¬(c.id = cardId)))).length : Int))
            ((targetIdxs tgt (s.cards.filter (fun c => ¬(c.id = cardId)))).length : Int))) <
            ((targetIdxs tgt (s.cards.filter (fun c => ¬(c.id = cardId)))).length : Int) := by
          have hminle : (min (ti.getD
              ((targetIdxs tgt (s.cards.filter (fun c => ¬(c.id = cardId)))).length : Int))
              ((targetIdxs tgt (s.cards.filter (fun c => ¬(c.id = cardId)))).length : Int)) ≤
              ((targetIdxs tgt (s.cards.filter (fun c => ¬(c.id = cardId)))).length : Int) :=
            min_le_right _ _
          omega
        have hi : (max 0 (min (ti.getD
            ((targetIdxs tgt (s.cards.filter (fun c => ¬(c.id = cardId)))).length : Int))
            ((targetIdxs tgt (s.cards.filter (fun c => ¬(c.id = cardId)))).length : Int))).toNat <
            (pidxs (fun c => decide (c.listId = tgt))
              (s.cards.filter (fun c => ¬(c.id = cardId)))).length := by
          rw [← hTP]
          omega
        have hget := filter_insertAt_getD (fun c => decide (c.listId = tgt))
          (touchCard ctx { card with listId := tgt, order := ti.getD 0 }) hpm
          (s.cards.filter (fun c => ¬(c.id = cardId)))
          (max 0 (min (ti.getD
            ((targetIdxs tgt (s.cards.filter (fun c => ¬(c.id = cardId)))).length : Int))
            ((targetIdxs tgt (s.cards.filter (fun c => ¬(c.id = cardId)))).length : Int))).toNat
          hi
        rw [← hTP] at hget
        rw [hget]
        have hclamp : moveClamped ti (((s.cards.filter (fun c => ¬(c.id = cardId))).filter
            (fun c => c.listId = tgt)).length) =
            (max 0 (min (ti.getD
              ((targetIdxs tgt (s.cards.filter (fun c => ¬(c.id = cardId)))).length : Int))
              ((targetIdxs tgt (s.cards.filter (fun c => ¬(c.id = cardId)))).length : Int))).toNat := by
          unfold moveClamped
          rw [← hlen]
        rw [hclamp]

/-- C5 witness: the concrete move of card x into list L at requested index 1
satisfies the amended placement facts. -/
theorem move_card_placement_witness :
    ((boardReducer moveSampleState (.moveCard "x" "M" "L" (some 1)) sampleCtx).cards.map
      (fun c => c.id)).Perm (moveSampleState.cards.map (fun c => c.id)) ∧
    (boardReducer moveSampleState (.moveCard "x" "M" "L" (some 1)) sampleCtx).cards.filter
        (fun c => c.listId = "L") =
      insertAt
        (moveClamped (some 1) (((moveSampleState.cards.filter (fun c => ¬(c.id = "x"))).filter
          (fun c => c.listId = "L")).length))
        (touchCard sampleCtx { cardX with listId := "L", order := (some (1 : Int)).getD 0 })
        ((moveSampleState.cards.filter (fun c => ¬(c.id = "x"))).filter
          (fun c => c.listId = "L")) ∧
    (touchCard sampleCtx { cardX with listId := "L", order := (some (1 : Int)).getD 0 }).order =
      (some (1 : Int)).getD 0 ∧
    (touchCard sampleCtx { cardX with listId := "L", order := (some (1 : Int)).getD 0 }).version =
      cardX.version + 1 :=
  move_card_placement moveSampleState "x" "M" "L" (some 1) sampleCtx cardX
    (by decide) (by decide)

/-- C6 counterexample: in the legacy reducer (src/client/context), adding a
list to an empty board assigns order 1, and adding a card to a list with no
cards assigns order 1, not the order 0 the claim states for an empty sibling
set. -/
theorem legacy_add_list_order_cex :
    ((Trello.Legacy.addList ⟨[], [], []⟩ "Backlog" sampleCtx).lists.map (fun l => l.order)) = [1] ∧
    ((Trello.Legacy.addCard ⟨[], [], []⟩ "L" "t" sampleCtx).cards.map (fun c => c.order)) = [1] ∧
    ¬((1 : Int) = 0) := by
  refine ⟨rfl, rfl, by decide⟩

/-- C6 amended: in the reducer used by the app (BoardProvider), ADD_LIST and
ADD_CARD assign version 1 and order = max existing sibling order + 1, which is
0 on an empty sibling set and exceeds every existing sibling order; in the
legacy reducer (src/client/context/boardReducer.js), the new entity also gets
version 1 but order = max(0, existing sibling orders) + 1, which is 1, not 0,
on an empty sibling set. -/
theorem creation_order_version (s : BoardState) (ls : Trello.Legacy.LegacyState)
    (title lid desc : String) (tags : List String) (ctx : Ctx) :
    (∃ nl, (boardReducer s (.addList title) ctx).lists = s.lists ++ [nl] ∧
      nl.version = 1 ∧
      nl.order = maxOrderD (s.lists.map (fun l => l.order)) + 1 ∧
      (s.lists = [] → nl.order = 0) ∧
      (∀ l ∈ s.lists, l.order < nl.order)) ∧
    (∃ nc, (boardReducer s (.addCard lid title desc tags) ctx).cards = s.cards ++ [nc] ∧
      nc.version = 1 ∧
      nc.order = maxOrderD ((s.cards.filter (fun c => c.listId = lid)).map (fun c => c.order)) + 1 ∧
      ((s.cards.filter (fun c => c.listId = lid)) = [] → nc.order = 0) ∧
      (∀ c ∈ s.cards.filter (fun c => c.listId = lid), c.order < nc.order)) ∧
    (∃ nl, (Trello.Legacy.addList ls title ctx).lists = ls.lists ++ [nl] ∧
      nl.version = 1 ∧
      nl.order = Trello.Legacy.jsMathMax0 (ls.lists.map (fun l => l.order)) + 1 ∧
      (ls.lists = [] → nl.order = 1)) ∧
    (∃ nc, (Trello.Legacy.addCard ls lid title ctx).cards = ls.cards ++ [nc] ∧
      nc.version = 1 ∧
      (ls.cards.filter (fun c => c.listId = lid) = [] → nc.order = 1)) := by
  refine ⟨?_, ?_, ?_, ?_⟩
  · refine ⟨_, rfl, rfl, ?_, ?_, ?_⟩
    · show (match s.lists.map (fun l => l.order) with
        | [] => (-1 : Int)
        | o :: os => os.foldl max o) + 1 = maxOrderD (s.lists.map (fun l => l.order)) + 1
      rfl
    · intro hnil
      simp [hnil]
    · intro l hl
      have : l.order ∈ s.lists.map (fun l => l.order) := List.mem_map_of_mem _ hl
      have h2 := mem_lt_maxOrderD_succ _ _ this
      exact h2
  · refine ⟨_, rfl, rfl, ?_, ?_, ?_⟩
    · show (match (s.cards.filter (fun c => c.listId = lid)).map (fun c => c.order) with
        | [] => (-1 : Int)
        | o :: os => os.foldl max o) + 1 =
        maxOrderD ((s.cards.filter (fun c => c.listId = lid)).map (fun c => c.order)) + 1
      rfl
    · intro hnil
      simp [hnil]
    · intro c hc
      have : c.order ∈ (s.cards.filter (fun c => c.listId = lid)).map (fun c => c.order) :=
        List.mem_map_of_mem _ hc
      exact mem_lt_maxOrderD_succ _ _ this
  · refine ⟨_, rfl, rfl, rfl, ?_⟩
    intro hnil
    simp [Trello.Legacy.jsMathMax0, hnil]
  · refine ⟨_, rfl, rfl, ?_⟩
    intro hnil
    show Trello.Legacy.jsMathMax0
        ((ls.cards.filter (fun c => c.listId = lid)).map (fun c => c.order) ++ [0]) + 1 = 1
    rw [hnil]
    rfl

/-- C6 witness: on empty boards the app reducer creates the first list at
order 0, while the legacy reducer creates it at order 1; both at version 1. -/
theorem creation_order_version_witness :
    (∃ nl, (boardReducer initialState (.addList "Backlog") sampleCtx).lists =
        initialState.lists ++ [nl] ∧
      nl.version = 1 ∧
      nl.order = maxOrderD (initialState.lists.map (fun l => l.order)) + 1 ∧
      (initialState.lists = [] → nl.order = 0) ∧
      (∀ l ∈ initialState.lists, l.order < nl.order)) ∧
    (∃ nl, (Trello.Legacy.addList ⟨[], [], []⟩ "Backlog" sampleCtx).lists =
        Trello.Legacy.LegacyState.lists ⟨[], [], []⟩ ++ [nl] ∧
      nl.version = 1 ∧
      nl.order = Trello.Legacy.jsMathMax0
        ((Trello.Legacy.LegacyState.lists ⟨[], [], []⟩).map (fun l => l.order)) + 1 ∧
      (Trello.Legacy.LegacyState.lists ⟨[], [], []⟩ = [] → nl.order = 1)) :=
  ⟨(creation_order_version initialState ⟨[], [], []⟩ "Backlog" "L" "" [] sampleCtx).1,
   (creation_order_version initialState ⟨[], [], []⟩ "Backlog" "L" "" [] sampleCtx).2.2.1⟩

/-- C8: version discipline of the user-initiated mutating actions. ADD_LIST
and ADD_CARD create their entity at version 1; every single step leaves each
entity's version unchanged or raises it by exactly 1 (entities that appear
carry version 1, and an absent entity stays absent when the step's fresh id
differs); the entity UPDATE_CARD or RENAME_LIST targets gains exactly 1; and
over any sequence of user mutations whose fresh ids avoid an entity's id, that
entity's version never decreases. UNDO/REDO restore whole snapshots and are
not mutations — the spec's own scenario expects versions to roll back then. -/
theorem version_discipline :
    (∀ (s : BoardState) (title : String) (ctx : Ctx),
      ∃ nl, (boardReducer s (.addList title) ctx).lists = s.lists ++ [nl] ∧
        nl.version = 1) ∧
    (∀ (s : BoardState) (lid title desc : String) (tags : List String) (ctx : Ctx),
      ∃ nc, (boardReducer s (.addCard lid title desc tags) ctx).cards = s.cards ++ [nc] ∧
        nc.version = 1) ∧
    (∀ (s : BoardState) (a : UAction) (ctx : Ctx) (x : String),
      VersionStep Card.id Card.version s.cards
        (boardReducer s a.toAction ctx).cards ctx.uuid1 x) ∧
    (∀ (s : BoardState) (a : UAction) (ctx : Ctx) (x : String),
      VersionStep BList.id BList.version s.lists
        (boardReducer s a.toAction ctx).lists ctx.uuid1 x) ∧
    (∀ (s : BoardState) (cid : String) (u : CardUpdates) (ctx : Ctx) (cd : Card),
      s.cards.find? (fun k => k.id = cid) = some cd →
      (boardReducer s (.updateCard cid u) ctx).cards.find? (fun k => k.id = cid) =
        some (touchCard ctx (applyUpdates cd u)) ∧
      (touchCard ctx (applyUpdates cd u)).version = cd.version + 1) ∧
    (∀ (s : BoardState) (lid title : String) (ctx : Ctx) (ld : BList),
      s.lists.find? (fun k => k.id = lid) = some ld →
      (boardReducer s (.renameList lid title) ctx).lists.find? (fun k => k.id = lid) =
        some (touchList ctx { ld with title := title }) ∧
      (touchList ctx { ld with title := title }).version = ld.version + 1) ∧
    (∀ (run : List (UAction × Ctx)) (s : BoardState) (x : String) (cd cd' : Card),
      (∀ pc ∈ run, pc.2.uuid1 ≠ x) →
      s.cards.find? (fun k => k.id = x) = some cd →
      (runU s run).cards.find? (fun k => k.id = x) = some cd' →
      cd.version ≤ cd'.version) ∧
    (∀ (run : List (UAction × Ctx)) (s : BoardState) (x : String) (ld ld' : BList),
      (∀ pc ∈ run, pc.2.uuid1 ≠ x) →
      s.lists.find? (fun k => k.id = x) = some ld →
      (runU s run).lists.find? (fun k => k.id = x) = some ld' →
      ld.version ≤ ld'.version) := by
  refine ⟨?_, ?_, step_version_cards, step_version_lists, ?_, ?_,
    runU_mono_cards, runU_mono_lists⟩
  · intro s title ctx
    exact ⟨_, rfl, rfl⟩
  · intro s lid title desc tags ctx
    exact ⟨_, rfl, rfl⟩
  · intro s cid u ctx cd hfind
    have hcid : cd.id = cid := by
      have h := List.find?_some hfind
      simpa using h
    have hf : ∀ c : Card, (fun k : Card => decide (k.id = cid))
        (if c.id = cid then touchCard ctx (applyUpdates c u) else c) =
        (fun k : Card => decide (k.id = cid)) c := by
      intro c
      by_cases h : c.id = cid
      · rw [if_pos h]
        simp [touchCard, applyUpdates, h]
      · rw [if_neg h]
    have hmap := find?_map_preserve
      (fun c => if c.id = cid then touchCard ctx (applyUpdates c u) else c)
      (fun k : Card => decide (k.id = cid)) hf s.cards
    constructor
    · show (s.cards.map (fun c =>
        if c.id = cid then touchCard ctx (applyUpdates c u) else c)).find?
          (fun k => k.id = cid) = some (touchCard ctx (applyUpdates cd u))
      rw [hmap, hfind]
      show some (if cd.id = cid then touchCard ctx (applyUpdates cd u) else cd) = _
      rw [if_pos hcid]
    · rfl
  · intro s lid title ctx ld hfind
    have hlid : ld.id = lid := by
      have h := List.find?_some hfind
      simpa using h
    have hf : ∀ l : BList, (fun k : BList => decide (k.id = lid))
        (if l.id = lid then touchList ctx { l with title := title } else l) =
        (fun k : BList => decide (k.id = lid)) l := by
      intro l
      by_cases h : l.id = lid
      · rw [if_pos h]
        simp [touchList, h]
      · rw [if_neg h]
    have hmap := find?_map_preserve
      (fun l => if l.id = lid then touchList ctx { l with title := title } else l)
      (fun k : BList => decide (k.id = lid)) hf s.lists
    constructor
    · show (s.lists.map (fun l =>
        if l.id = lid then touchList ctx { l with title := title } else l)).find?
          (fun k => k.id = lid) = some (touchList ctx { ld with title := title })
      rw [hmap, hfind]
      show some (if ld.id = lid then touchList ctx { ld with title := title } else ld) = _
      rw [if_pos hlid]
    · rfl

/-- C8 witness: updating card a's title on the sample board bumps its version
from 1 to exactly 2, and the one-step run never decreases it. -/
theorem version_discipline_witness :
    ((boardReducer conflictState (.updateCard "a" ⟨some "t2", none, none⟩ : Action)
        sampleCtx).cards.find? (fun k => k.id = "a") =
      some (touchCard sampleCtx (applyUpdates cardA ⟨some "t2", none, none⟩)) ∧
      (touchCard sampleCtx (applyUpdates cardA ⟨some "t2", none, none⟩)).version =
        cardA.version + 1) ∧
    cardA.version ≤ (touchCard sampleCtx (applyUpdates cardA ⟨some "t2", none, none⟩)).version :=
  ⟨version_discipline.2.2.2.2.1 conflictState "a" ⟨some "t2", none, none⟩ sampleCtx cardA
      (by decide),
   version_discipline.2.2.2.2.2.2.1
      [(UAction.updateCard "a" ⟨some "t2", none, none⟩, sampleCtx)] conflictState "a"
      cardA (touchCard sampleCtx (applyUpdates cardA ⟨some "t2", none, none⟩))
      (by decide) (by decide) (by decide)⟩

/-- C9: N user-initiated mutating actions, each bracketed by PUSH_HISTORY
before and after (as useBoardState dispatches them), followed by N UNDOs and
then N REDOs, leave lists and cards exactly equal to the state right after the
N actions — including when the 50-slot history ring evicted old snapshots,
since the final push anchors the cursor at the last snapshot and N redos
always return the cursor there. -/
theorem undo_redo_roundtrip (s0 : BoardState) (run : List (UAction × Ctx))
    (cu cr : Ctx) :
    (redoTimes cr run.length (undoTimes cu run.length (runBracketed s0 run))).lists =
      (runBracketed s0 run).lists ∧
    (redoTimes cr run.length (undoTimes cu run.length (runBracketed s0 run))).cards =
      (runBracketed s0 run).cards := by
  cases run with
  | nil => exact ⟨rfl, rfl⟩
  | cons pc rest =>
    obtain ⟨htr, hidx⟩ := runBracketed_anchor (pc :: rest) s0 (by simp)
    have hu := undoTimes_tracking cu (pc :: rest).length
      (runBracketed s0 (pc :: rest)).history (runBracketed s0 (pc :: rest)) htr
    have hr := redoTimes_tracking cr (pc :: rest).length
      (runBracketed s0 (pc :: rest)).history
      (undoTimes cu (pc :: rest).length (runBracketed s0 (pc :: rest))) hu.1
    have hlen1 : 1 ≤ (runBracketed s0 (pc :: rest)).history.length := by
      have h1 := htr.2.1
      have h2 := htr.2.2.1
      omega
    have hfinal : (redoTimes cr (pc :: rest).length
        (undoTimes cu (pc :: rest).length (runBracketed s0 (pc :: rest)))).historyIndex =
        (((runBracketed s0 (pc :: rest)).history.length : Int)) - 1 := by
      rw [hr.2, hu.2, hidx]
      omega
    have hget1 := htr.2.2.2
    have hget2 := hr.1.2.2.2
    rw [hfinal] at hget2
    rw [hidx] at hget1
    have hsome := hget2.symm.trans hget1
    have hsnap := Option.some.inj hsome
    exact ⟨congrArg Snapshot.lists hsnap, congrArg Snapshot.cards hsnap⟩

/-- C10 witness: the conflicted card a was deleted; keep-local removes the
conflict and enqueues nothing. -/
theorem resolve_vanished_entity_witness :
    (boardReducer vanishedState (.resolveConflict "c1" "local") sampleCtx).syncQueue =
      vanishedState.syncQueue ∧
    (boardReducer vanishedState (.resolveConflict "c1" "local") sampleCtx).cards =
      vanishedState.cards ∧
    (boardReducer vanishedState (.resolveConflict "c1" "local") sampleCtx).lists =
      vanishedState.lists ∧
    (boardReducer vanishedState (.resolveConflict "c1" "local") sampleCtx).conflicts =
      vanishedState.conflicts.filter (fun c => ¬(c.id = "c1")) :=
  resolve_vanished_entity vanishedState sampleCtx sampleConflict (by decide)
    (Or.inl ⟨by decide, by decide⟩)

end Trello
